import Mathlib

/-!
Verification development for the negotiation-game server
(`server.js` and its `src/` modules).  The definitions below are shallow
embeddings of the JavaScript source: pure functions become Lean functions,
the mutable in-memory tables (`users`, `pairs`) become an explicit state
record threaded through the event handlers, and the randomness consumed by
`Math.random()` is supplied by explicit oracle parameters so that every
theorem quantifies over all possible draws.
-/

namespace NegGame

/-- Negotiation roles exactly as encoded in the source: the string `"A"` is
the Seller and `"B"` is the Buyer (`src/pairing.js`). -/
inductive Role where
  | A
  | B
  deriving DecidableEq, Repr

/-! ## Character/string helpers mirroring the JavaScript string methods
used by `extractNumbersWithRegex` (`server.js` 274-402).  All inputs in the
claims are ASCII, for which `Char.toLower` agrees with JS `toLowerCase`. -/

/-- `leadsWith pat s` is true when `s` starts with `pat` (JS `startsWith`). -/
def leadsWith : List Char → List Char → Bool
  | [], _ => true
  | _ :: _, [] => false
  | a :: as, b :: bs => a == b && leadsWith as bs

/-- First index at which `pat` occurs in `s` (JS `String.indexOf`),
`none` when it does not occur. -/
def subFrom : List Char → List Char → Option Nat
  | s, pat =>
    if leadsWith pat s then some 0
    else
      match s with
      | [] => none
      | _ :: t => (subFrom t pat).map (· + 1)

/-- JS `String.includes`. -/
def hasSub (s pat : List Char) : Bool := (subFrom s pat).isSome

/-- JS `String.endsWith`. -/
def endsWithL (s pat : List Char) : Bool := leadsWith pat.reverse s.reverse

/-- Lowercase a character list (JS `toLowerCase`, ASCII). -/
def lowerStr (l : List Char) : List Char := l.map Char.toLower

/-- JS `String.trim`: strip whitespace from both ends. -/
def trimL (l : List Char) : List Char :=
  ((l.dropWhile Char.isWhitespace).reverse.dropWhile Char.isWhitespace).reverse

/-- Scanner for the regex `/\$?\d+/g`.  `acc` is the pending token in
reverse (digits possibly sitting on a `$`); a token is emitted when the
digit run ends, provided it contains at least one digit. -/
def lexScan : List Char → List Char → List (List Char)
  | [], acc => if acc.any Char.isDigit then [acc.reverse] else []
  | c :: rest, acc =>
    if c.isDigit then lexScan rest (c :: acc)
    else
      (if acc.any Char.isDigit then [acc.reverse] else []) ++
        (if c == '$' then lexScan rest ['$'] else lexScan rest [])

/-- All matches of the regex `/\$?\d+/g`: maximal digit runs, optionally
taking one immediately preceding `$`, scanned left to right. -/
def lexNums (l : List Char) : List (List Char) := lexScan l []

/-- The apostrophe character, used inside some of the source phrases. -/
def apoS : String := String.singleton (Char.ofNat 39)

/-- `server.js` 280: words signalling that an adjacent number is a
product/model number rather than a price. -/
def productWords : List String :=
  ["iphone", "galaxy", "series", "model", "version", "mark", "pro", "max", "mini", "plus"]

/-- `server.js` 283-289: phrases that mark a number as an explicit offer. -/
def offerPhrases : List String :=
  ["i can offer", "i offer", "offer you", "willing to pay",
   "i" ++ apoS ++ "ll pay", "i can pay",
   "thinking more like", "how about", "what about", "i was thinking",
   "the least i can take", "i can take",
   "lowest i" ++ apoS ++ "ll go", "minimum is",
   "my final offer", "best i can do",
   "i" ++ apoS ++ "ll accept", "deal at",
   "counter offer", "counteroffer", "i propose"]

/-- `server.js` 292-295: rejection-context phrases. -/
def rejectionPhrases : List String :=
  ["too high", "too expensive", "too much",
   "can" ++ apoS ++ "t afford", "way too",
   "below asking", "far below", "not enough", "too low"]

/-- Exact rational multiplication, written through `mkRat` so that the
kernel can evaluate it on concrete inputs (the library `Rat.mul` is
irreducible); `qmul_eq_mul` below identifies it with `*`. -/
def qmul (a b : ℚ) : ℚ := mkRat (a.num * b.num) (a.den * b.den)

theorem qmul_eq_mul (a b : ℚ) : qmul a b = a * b := by
  rw [qmul, Rat.mul_def, Rat.mkRat_def, dif_neg (Nat.mul_ne_zero a.den_nz b.den_nz)]

/-- `Math.max` on two numbers (decidable and kernel-computable). -/
def qmax (a b : ℚ) : ℚ := if a ≤ b then b else a

/-- `Math.min` on two numbers. -/
def qmin (a b : ℚ) : ℚ := if b ≤ a then b else a

/-- One extracted candidate number with its contextual tag and confidence
(the `numbers` entries of `extractNumbersWithRegex`). -/
structure Cand where
  value : ℚ
  context : String
  confidence : ℚ
  surrounding : String
  deriving DecidableEq, Repr

/-- `parseFloat(match.replace("$", ""))`: the token is an optional `$`
followed by digits, so this is the digit run read as a number. -/
def parseVal (tok : List Char) : ℚ :=
  (((tok.filter Char.isDigit).foldl (fun acc c => acc * 10 + (c.toNat - 48)) (0 : Nat) : Nat) : ℚ)

/-- The per-match analysis of `extractNumbersWithRegex` (`server.js`
297-362): locate the first occurrence of the token in the text, take a
30-character window on each side, and score the candidate. -/
def analyzeTok (text : List Char) (tok : List Char) : Cand :=
  let value := parseVal tok
  let idx := (subFrom text tok).getD 0
  let before := lowerStr ((text.take idx).drop (idx - 30))
  let after := lowerStr ((text.drop (idx + tok.length)).take 30)
  let lowTok := lowerStr tok
  let surr := before ++ (' ' :: lowTok) ++ (' ' :: after)
  let isLikelyModel := productWords.any (fun p =>
    endsWithL before (p.toList ++ [' ']) || hasSub before (p.toList ++ [' '] ++ lowTok))
  if isLikelyModel then
    { value := value, context := "model_number", confidence := mkRat 1 20,
      surrounding := String.mk (trimL surr) }
  else
    let base : ℚ × String := (mkRat 3 10, "neutral")
    let afterOffer : ℚ × String :=
      match offerPhrases.find? (fun ph => hasSub surr ph.toList) with
      | some _ => (mkRat 9 10, "offer_phrase")
      | none => base
    let afterRejection : ℚ × String :=
      if afterOffer.1 < mkRat 9 10 then
        match rejectionPhrases.find? (fun ph => hasSub surr ph.toList) with
        | some _ => (qmax (qmul afterOffer.1 (mkRat 7 10)) (mkRat 2 10), "rejection_context")
        | none => afterOffer
      else afterOffer
    let afterDollar : ℚ :=
      if tok.head? == some '$' then qmul afterRejection.1 (mkRat 13 10) else afterRejection.1
    let afterRange : ℚ :=
      if 50 ≤ value ∧ value ≤ 10000 then qmul afterDollar (mkRat 12 10)
      else if value < 10 then qmul afterDollar (mkRat 3 10)
      else if 10000 < value then qmul afterDollar (mkRat 7 10)
      else afterDollar
    { value := value, context := afterRejection.2, confidence := afterRange,
      surrounding := String.mk (trimL surr) }

/-- JS `Array.reduce` picking the candidate of maximal confidence, keeping
the earlier one on ties (`server.js` 376-378). -/
def pickBest (x : Cand) (xs : List Cand) : Cand :=
  xs.foldl (fun best cur => if best.confidence < cur.confidence then cur else best) x

/-- Stable insertion step for a descending sort by confidence: an element
is placed before the first strictly-smaller-or-equal entry, so earlier
elements stay ahead of equal ones, matching JS's stable `sort`. -/
def insertDesc (c : Cand) : List Cand → List Cand
  | [] => [c]
  | x :: xs => if x.confidence ≤ c.confidence then c :: x :: xs else x :: insertDesc c xs

/-- Stable descending sort by confidence, modelling
`validNumbers.sort((a, b) => b.confidence - a.confidence)`. -/
def sortDesc : List Cand → List Cand
  | [] => []
  | x :: xs => insertDesc x (sortDesc xs)

/-- `Math.max(...)` over a list of rationals; the empty case never occurs
in the source (`Math.max()` of an empty spread would be `-Infinity`). -/
def vsMax : List ℚ → ℚ
  | [] => 0
  | v :: vs => vs.foldl qmax v

/-- `Math.min(...)` over a list of rationals. -/
def vsMin : List ℚ → ℚ
  | [] => 0
  | v :: vs => vs.foldl qmin v

/-- `Math.max(...topConfident.map(n => n.value))`. -/
def maxValQ (l : List Cand) : ℚ := vsMax (l.map Cand.value)

/-- `Math.min(...topConfident.map(n => n.value))`. -/
def minValQ (l : List Cand) : ℚ := vsMin (l.map Cand.value)

/-- The selection phase of `extractNumbersWithRegex` (`server.js`
364-399): confidence floor 0.1, explicit-offer preference, then role bias
over the cluster within 80% of the top confidence. -/
def selectOffer (numbers : List Cand) (role : Option Role) : Option ℚ :=
  match numbers with
  | [] => none
  | _ :: _ =>
    match numbers.filter (fun n => mkRat 1 10 < n.confidence) with
    | [] => none
    | v :: vs =>
      match (v :: vs).filter (fun n => n.context == "offer_phrase") with
      | s :: ss => some (pickBest s ss).value
      | [] =>
        let sorted := sortDesc (v :: vs)
        let top := qmul ((sorted.head?.map Cand.confidence).getD 0) (mkRat 4 5)
        let topConfident := sorted.filter (fun n => top ≤ n.confidence)
        match role with
        | some Role.A => some (maxValQ topConfident)
        | some Role.B => some (minValQ topConfident)
        | none => some ((sorted.head?.map Cand.value).getD 0)

/-- Result of `extractNumbersWithRegex`: the candidate list and the chosen
offer (the `rawModelOutput`/`errorCause` fields are the constants `null`
and `"regex_only"` in this code path and are omitted). -/
structure ExtractResult where
  numbersFound : List Cand
  offer : Option ℚ
  deriving DecidableEq, Repr

/-- `extractNumbersWithRegex(text, role)` (`server.js` 274-402); also the
body of `extractOffer`, which always delegates to it. -/
def extractNumbersWithRegex (text : String) (role : Option Role) : ExtractResult :=
  let numbers := (lexNums text.toList).map (analyzeTok text.toList)
  { numbersFound := numbers, offer := selectOffer numbers role }

/-! ## Spec-side formulation of the selection policy (spec.md §4.4).
`specSelect` is written from the spec's words — floor, preference for
offer-declarations by highest confidence, role bias over the
most-confident cluster, highest-confidence candidate when roleless — and
is compared with the code's `selectOffer`. -/

/-- The earliest candidate of maximal confidence in a list. -/
def firstMaxConf : List Cand → Option Cand
  | [] => none
  | x :: xs =>
    match firstMaxConf xs with
    | none => some x
    | some m => some (if x.confidence < m.confidence then m else x)

/-- Modelled from the spec: "among candidates above a minimum confidence
floor, prefer any candidate tagged as an explicit offer-declaration
(highest confidence among those); otherwise, apply role bias — a Seller's
chosen offer is the maximum among the most-confident cluster, a Buyer's is
the minimum among the most-confident cluster.  With no role, pick the
single highest-confidence candidate.  No candidates → null offer."
The floor (0.1) and the cluster width (within 80% of the top confidence)
are the code's constants. -/
def specSelect (cands : List Cand) (role : Option Role) : Option ℚ :=
  let valid := cands.filter (fun n => mkRat 1 10 < n.confidence)
  match firstMaxConf (valid.filter (fun n => n.context == "offer_phrase")) with
  | some d => some d.value
  | none =>
    match firstMaxConf valid with
    | none => none
    | some m =>
      let cluster := valid.filter (fun n => qmul m.confidence (mkRat 4 5) ≤ n.confidence)
      match role with
      | some Role.A => some (maxValQ cluster)
      | some Role.B => some (minValQ cluster)
      | none => some m.value

/-- The binary step of both `pickBest` and `firstMaxConf`: later argument
wins only with strictly larger confidence. -/
def comb (a b : Cand) : Cand := if a.confidence < b.confidence then b else a

theorem comb_assoc (a b c : Cand) : comb (comb a b) c = comb a (comb b c) := by
  unfold comb
  split_ifs <;> first | rfl | (exfalso; linarith)

theorem fmc_comb (a b : Cand) (xs : List Cand) :
    firstMaxConf (a :: b :: xs) = firstMaxConf (comb a b :: xs) := by
  cases h : firstMaxConf xs with
  | none =>
    simp only [firstMaxConf, h]
    rfl
  | some m =>
    simp only [firstMaxConf, h]
    show some (comb a (comb b m)) = some (comb (comb a b) m)
    rw [comb_assoc]

theorem fmc_pickBest : ∀ (xs : List Cand) (x : Cand),
    firstMaxConf (x :: xs) = some (pickBest x xs) := by
  intro xs
  induction xs with
  | nil => intro x; rfl
  | cons y ys ih =>
    intro x
    rw [fmc_comb x y ys, ih (comb x y)]
    rfl

theorem insertDesc_perm (c : Cand) (l : List Cand) : List.Perm (insertDesc c l) (c :: l) := by
  induction l with
  | nil => exact List.Perm.refl _
  | cons x xs ih =>
    unfold insertDesc
    split
    · exact List.Perm.refl _
    · exact (ih.cons x).trans (List.Perm.swap c x xs)

theorem sortDesc_perm (l : List Cand) : List.Perm (sortDesc l) l := by
  induction l with
  | nil => exact List.Perm.refl _
  | cons x xs ih => exact (insertDesc_perm x (sortDesc xs)).trans (ih.cons x)

theorem insertDesc_head_cons (c x : Cand) (xs : List Cand) :
    (insertDesc c (x :: xs)).head? =
      some (if x.confidence ≤ c.confidence then c else x) := by
  show (if x.confidence ≤ c.confidence then c :: x :: xs
        else x :: insertDesc c xs).head? = _
  split <;> rfl

theorem sortDesc_head (l : List Cand) : (sortDesc l).head? = firstMaxConf l := by
  induction l with
  | nil => rfl
  | cons x xs ih =>
    show (insertDesc x (sortDesc xs)).head? = _
    cases hs : sortDesc xs with
    | nil =>
      have h1 := sortDesc_perm xs
      rw [hs] at h1
      have hxs : xs = [] := h1.symm.eq_nil
      subst hxs
      rfl
    | cons y ys =>
      have hy : firstMaxConf xs = some y := by
        rw [← ih, hs]; rfl
      rw [insertDesc_head_cons]
      simp only [firstMaxConf, hy]
      split_ifs with h1 h2 h2 <;> first | rfl | (exfalso; linarith)

theorem qmax_right_comm (a b c : ℚ) : qmax (qmax a b) c = qmax (qmax a c) b := by
  unfold qmax
  split_ifs <;> first | rfl | linarith

theorem qmin_right_comm (a b c : ℚ) : qmin (qmin a b) c = qmin (qmin a c) b := by
  unfold qmin
  split_ifs <;> first | rfl | linarith

theorem qmax_comm (a b : ℚ) : qmax a b = qmax b a := by
  unfold qmax
  split_ifs <;> first | rfl | linarith

theorem qmin_comm (a b : ℚ) : qmin a b = qmin b a := by
  unfold qmin
  split_ifs <;> first | rfl | linarith

theorem foldl_qmax_perm {l1 l2 : List ℚ} (h : List.Perm l1 l2) :
    ∀ a, l1.foldl qmax a = l2.foldl qmax a := by
  induction h with
  | nil => intro a; rfl
  | cons x _ ih => intro a; exact ih (qmax a x)
  | swap x y l =>
    intro a
    show List.foldl qmax (qmax (qmax a y) x) l = List.foldl qmax (qmax (qmax a x) y) l
    rw [qmax_right_comm]
  | trans _ _ ih1 ih2 => intro a; exact (ih1 a).trans (ih2 a)

theorem foldl_qmin_perm {l1 l2 : List ℚ} (h : List.Perm l1 l2) :
    ∀ a, l1.foldl qmin a = l2.foldl qmin a := by
  induction h with
  | nil => intro a; rfl
  | cons x _ ih => intro a; exact ih (qmin a x)
  | swap x y l =>
    intro a
    show List.foldl qmin (qmin (qmin a y) x) l = List.foldl qmin (qmin (qmin a x) y) l
    rw [qmin_right_comm]
  | trans _ _ ih1 ih2 => intro a; exact (ih1 a).trans (ih2 a)

theorem vsMax_perm {l1 l2 : List ℚ} (h : List.Perm l1 l2) : vsMax l1 = vsMax l2 := by
  induction h with
  | nil => rfl
  | cons x hperm ih => exact foldl_qmax_perm hperm x
  | swap x y l =>
    show List.foldl qmax (qmax y x) l = List.foldl qmax (qmax x y) l
    rw [qmax_comm]
  | trans _ _ ih1 ih2 => exact ih1.trans ih2

theorem vsMin_perm {l1 l2 : List ℚ} (h : List.Perm l1 l2) : vsMin l1 = vsMin l2 := by
  induction h with
  | nil => rfl
  | cons x hperm ih => exact foldl_qmin_perm hperm x
  | swap x y l =>
    show List.foldl qmin (qmin y x) l = List.foldl qmin (qmin x y) l
    rw [qmin_comm]
  | trans _ _ ih1 ih2 => exact ih1.trans ih2

theorem maxValQ_perm {l1 l2 : List Cand} (h : List.Perm l1 l2) : maxValQ l1 = maxValQ l2 :=
  vsMax_perm (h.map Cand.value)

theorem minValQ_perm {l1 l2 : List Cand} (h : List.Perm l1 l2) : minValQ l1 = minValQ l2 :=
  vsMin_perm (h.map Cand.value)

theorem selectOffer_eq_specSelect (cands : List Cand) (role : Option Role) :
    selectOffer cands role = specSelect cands role := by
  unfold selectOffer specSelect
  cases cands with
  | nil => rfl
  | cons c cs =>
    cases hval : (c :: cs).filter (fun n => mkRat 1 10 < n.confidence) with
    | nil => simp [hval, firstMaxConf]
    | cons v vs =>
      simp only [hval]
      cases hso : (v :: vs).filter (fun n => n.context == "offer_phrase") with
      | cons s ss =>
        simp only [hso, fmc_pickBest]
      | nil =>
        have hhead : (sortDesc (v :: vs)).head? = some (pickBest v vs) := by
          rw [sortDesc_head, fmc_pickBest]
        have hperm : List.Perm (sortDesc (v :: vs)) (v :: vs) := sortDesc_perm (v :: vs)
        have fmcnil : firstMaxConf ([] : List Cand) = none := rfl
        simp only [hso, fmcnil, fmc_pickBest, hhead,
          Option.map_some, Option.getD_some]
        cases role with
        | none => rfl
        | some r =>
          cases r with
          | A => exact congrArg some (maxValQ_perm (hperm.filter _))
          | B => exact congrArg some (minValQ_perm (hperm.filter _))

/-! ## Participants and the matchmaking engine (`server.js` 471-586).

A `GUser` carries the fields of the in-memory `users[userId]` objects that
the embedded handlers touch.  JavaScript aliasing (the same object is
reachable from `users`, `rooms[..].users` and `pairs[..].userA/B`) is
modelled by keying everything on `id` and routing every mutation through
one user table. -/

structure GUser where
  id : Nat
  name : String
  socketId : Option Nat
  pairId : Option Nat
  role : Option Role
  confirmPrice : Option ℚ
  roleHistory : List Role
  previousPartners : List Nat
  deriving DecidableEq, Repr

/-- `user.roleHistory.filter(role => role === 'B').length`. -/
def buyerCount (u : GUser) : Nat := (u.roleHistory.filter (fun r => r == Role.B)).length

/-- `user.roleHistory.filter(role => role === 'A').length`. -/
def sellerCount (u : GUser) : Nat := (u.roleHistory.filter (fun r => r == Role.A)).length

/-- `shouldPlayerBeBuyer` (`server.js` 471-491).  The `Math.random() < 0.5`
draws on a first encounter and on an exact tie are supplied as `coin`. -/
def shouldPlayerBeBuyer (u : GUser) (coin : Bool) : Bool :=
  if buyerCount u + sellerCount u == 0 then coin
  else if buyerCount u < sellerCount u then true
  else if sellerCount u < buyerCount u then false
  else coin

/-- The `eligibleUsers` filter of `findOptimalPartner` (`server.js`
495-499). -/
def eligiblePartners (user : GUser) (avail : List GUser) : List GUser :=
  avail.filter (fun o =>
    o.id != user.id
      && !(user.previousPartners.contains o.id)
      && !(o.previousPartners.contains user.id))

/-- `findOptimalPartner` (`server.js` 493-509); `r` models the
`Math.random()` index draw over the eligible users. -/
def findOptimalPartner (user : GUser) (avail : List GUser) (r : Nat) : Option GUser :=
  match eligiblePartners user avail with
  | [] => avail.find? (fun o => o.id != user.id)
  | e :: es => (e :: es).get? (r % (e :: es).length)

/-- The per-pair role decision of `createGamePairs` (`server.js` 543-569):
preferences first, buyer-count tie-break (the first-drawn participant wins
an exact tie) when they coincide. -/
def assignPairRoles (uA uB : GUser) (cA cB : Bool) : Role × Role :=
  let prefA := shouldPlayerBeBuyer uA cA
  let prefB := shouldPlayerBeBuyer uB cB
  if prefA == prefB then
    if buyerCount uA ≤ buyerCount uB then (Role.B, Role.A) else (Role.A, Role.B)
  else
    ((if prefA then Role.B else Role.A), (if prefB then Role.B else Role.A))

/-- The bookkeeping mutations of `createGamePairs` (`server.js` 566-577):
set the role, append it to the history, and record the partnership. -/
def recordPairing (u : GUser) (r : Role) (partnerId : Nat) : GUser :=
  { u with role := some r,
           roleHistory := u.roleHistory ++ [r],
           previousPartners := u.previousPartners ++ [partnerId] }

/-- `availableUsers.indexOf(userB)` followed by `splice(index, 1)`:
remove the first element with the given id. -/
def eraseById : List GUser → Nat → List GUser
  | [], _ => []
  | x :: xs, i => if x.id == i then xs else x :: eraseById xs i

/-- One swap step of the Fisher-Yates shuffle (`server.js` 525-528):
exchange position `j` with the last position.  Out-of-range `j` (never
produced, as `j` is a remainder) leaves the list unchanged. -/
def swapWithLast {α : Type} (l : List α) (j : Nat) : List α :=
  match l.drop j with
  | [] => l
  | x :: rest =>
    match rest.getLast? with
    | none => l
    | some y => l.take j ++ y :: (rest.dropLast ++ [x])

/-- Fuel-driven Fisher-Yates loop; each iteration fixes the last position,
exactly like the source's descending-index loop.  `sh k % len` models
`Math.floor(Math.random() * (i + 1))`. -/
def fyGo {α : Type} (sh : Nat → Nat) : Nat → Nat → List α → List α
  | 0, _, l => l
  | fuel + 1, k, l =>
    if 2 ≤ l.length then
      let l2 := swapWithLast l (sh k % l.length)
      fyGo sh fuel (k + 1) l2.dropLast ++ l2.getLast?.toList
    else l

/-- The shuffle of `createGamePairs` (`server.js` 524-528). -/
def fisherYates {α : Type} (sh : Nat → Nat) (l : List α) : List α :=
  fyGo sh l.length 0 l

/-- The pairing loop of `createGamePairs` (`server.js` 532-583), fuelled
for structural recursion (the fuel `avail.length` always suffices, as each
iteration removes two users).  `pick` feeds `findOptimalPartner`'s random
index, `cA`/`cB` the role coins. -/
def createGamePairsGo (pick : Nat → Nat) (cA cB : Nat → Bool) :
    Nat → Nat → List GUser → List (GUser × GUser)
  | 0, _, _ => []
  | fuel + 1, k, avail =>
    if 2 ≤ avail.length then
      match avail.getLast? with
      | none => []
      | some userA =>
        let rest := avail.dropLast
        match findOptimalPartner userA rest (pick k) with
        | some userB =>
          let rs := assignPairRoles userA userB (cA k) (cB k)
          (recordPairing userA rs.1 userB.id, recordPairing userB rs.2 userA.id)
            :: createGamePairsGo pick cA cB fuel (k + 1) (eraseById rest userB.id)
        | none =>
          match rest.getLast? with
          | none => []
          | some userB =>
            let rs := assignPairRoles userA userB (cA k) (cB k)
            (recordPairing userA rs.1 userB.id, recordPairing userB rs.2 userA.id)
              :: createGamePairsGo pick cA cB fuel (k + 1) rest.dropLast
    else []

/-- `createGamePairs(roomUsers)` (`server.js` 511-586): shuffle, then
repeatedly pop a user from the end and match them with a partner.  The
`roleHistory` initialisation of the source is implicit: the field is total
here. -/
def createGamePairs (sh pick : Nat → Nat) (cA cB : Nat → Bool)
    (roomUsers : List GUser) : List (GUser × GUser) :=
  let shuffled := fisherYates sh roomUsers
  createGamePairsGo pick cA cB shuffled.length 0 shuffled

/-! ## Matchmaking lemmas (towards the pool-size, disjointness and
role-assignment properties). -/

theorem getLastDecomp {α : Type} :
    ∀ (l : List α) (a : α), l.getLast? = some a → l.dropLast ++ [a] = l := by
  intro l
  induction l with
  | nil => intro a h; cases h
  | cons x xs ih =>
    intro a h
    cases xs with
    | nil =>
      simp only [List.getLast?_singleton, Option.some.injEq] at h
      subst h
      rfl
    | cons y ys =>
      rw [List.getLast?_cons_cons] at h
      have := ih a h
      simp only [List.dropLast_cons₂, List.cons_append, this]

theorem swapWithLast_perm {α : Type} (l : List α) (j : Nat) :
    List.Perm (swapWithLast l j) l := by
  cases hd : l.drop j with
  | nil => simp only [swapWithLast, hd]; exact List.Perm.refl _
  | cons x rest =>
    cases hl : rest.getLast? with
    | none => simp only [swapWithLast, hd, hl]; exact List.Perm.refl _
    | some y =>
      simp only [swapWithLast, hd, hl]
      have hrest : rest.dropLast ++ [y] = rest := getLastDecomp rest y hl
      have hsplit : List.take j l ++ x :: rest = l := by
        have h0 := List.take_append_drop j l
        rw [hd] at h0
        exact h0
      have p1 : List.Perm (y :: (rest.dropLast ++ [x])) (y :: x :: rest.dropLast) :=
        (List.perm_append_singleton x rest.dropLast).cons y
      have p2 : List.Perm (y :: x :: rest.dropLast) (x :: y :: rest.dropLast) :=
        List.Perm.swap x y rest.dropLast
      have p3 : List.Perm (x :: y :: rest.dropLast) (x :: (rest.dropLast ++ [y])) :=
        (List.perm_append_singleton y rest.dropLast).symm.cons x
      have p4 : List.Perm (x :: (rest.dropLast ++ [y])) (x :: rest) := by
        rw [hrest]
      have hstep := ((p1.trans p2).trans p3).trans p4
      have hfin : List.Perm (List.take j l ++ x :: rest) l := by
        rw [hsplit]
      exact (List.Perm.append_left _ hstep).trans hfin

theorem fyGo_perm {α : Type} (sh : Nat → Nat) :
    ∀ (fuel k : Nat) (l : List α), List.Perm (fyGo sh fuel k l) l := by
  intro fuel
  induction fuel with
  | zero => intro k l; exact List.Perm.refl _
  | succ n ih =>
    intro k l
    have heq : fyGo sh (n + 1) k l
        = if 2 ≤ l.length then
            fyGo sh n (k + 1) (swapWithLast l (sh k % l.length)).dropLast
              ++ (swapWithLast l (sh k % l.length)).getLast?.toList
          else l := rfl
    by_cases h2 : 2 ≤ l.length
    · rw [heq, if_pos h2]
      have hperm : List.Perm (swapWithLast l (sh k % l.length)) l :=
        swapWithLast_perm l _
      have hlen2 : (swapWithLast l (sh k % l.length)).length = l.length :=
        hperm.length_eq
      have hne : swapWithLast l (sh k % l.length) ≠ [] := by
        intro h
        rw [h] at hlen2
        simp at hlen2
        omega
      obtain ⟨a, ha⟩ : ∃ a, (swapWithLast l (sh k % l.length)).getLast? = some a := by
        cases hg : (swapWithLast l (sh k % l.length)).getLast? with
        | none => exact absurd (List.getLast?_eq_none_iff.mp hg) hne
        | some a => exact ⟨a, rfl⟩
      have hdec : (swapWithLast l (sh k % l.length)).dropLast ++ [a]
          = swapWithLast l (sh k % l.length) := getLastDecomp _ a ha
      rw [ha]
      have hmid :=
        (ih (k + 1) ((swapWithLast l (sh k % l.length)).dropLast)).append_right [a]
      have hmid2 : List.Perm
          ((swapWithLast l (sh k % l.length)).dropLast ++ [a])
          (swapWithLast l (sh k % l.length)) := by
        rw [hdec]
      exact (hmid.trans hmid2).trans hperm
    · rw [heq, if_neg h2]

theorem fisherYates_perm {α : Type} (sh : Nat → Nat) (l : List α) :
    List.Perm (fisherYates sh l) l :=
  fyGo_perm sh l.length 0 l

theorem eraseById_map_id (i : Nat) :
    ∀ l : List GUser, (eraseById l i).map (·.id) = (l.map (·.id)).erase i := by
  intro l
  induction l with
  | nil => rfl
  | cons x xs ih =>
    show (if x.id == i then xs else x :: eraseById xs i).map (·.id) = _
    rw [List.map_cons, List.erase_cons]
    by_cases h : x.id == i
    · simp [h]
    · simp [h, ih]

theorem eraseById_subset (i : Nat) :
    ∀ (l : List GUser) (u : GUser), u ∈ eraseById l i → u ∈ l := by
  intro l
  induction l with
  | nil => intro u h; cases h
  | cons x xs ih =>
    intro u h
    by_cases hx : x.id == i
    · simp only [eraseById, hx, if_pos] at h
      exact List.mem_cons_of_mem x h
    · simp only [eraseById, hx, Bool.false_eq_true, if_false] at h
      rcases List.mem_cons.mp h with h1 | h1
      · exact h1 ▸ List.mem_cons_self x xs
      · exact List.mem_cons_of_mem x (ih u h1)

theorem findOptimalPartnerMem (user : GUser) (avail : List GUser) (r : Nat)
    (v : GUser) (h : findOptimalPartner user avail r = some v) : v ∈ avail := by
  unfold findOptimalPartner at h
  cases he : eligiblePartners user avail with
  | nil =>
    rw [he] at h
    exact List.mem_of_find?_eq_some h
  | cons e es =>
    rw [he] at h
    have hv : v ∈ e :: es := List.get?_mem h
    rw [← he] at hv
    exact List.mem_of_mem_filter hv

theorem findOptimalPartnerNe (user : GUser) (avail : List GUser) (r : Nat)
    (v : GUser) (h : findOptimalPartner user avail r = some v) : v.id ≠ user.id := by
  unfold findOptimalPartner at h
  cases he : eligiblePartners user avail with
  | nil =>
    rw [he] at h
    have := List.find?_some h
    simpa using this
  | cons e es =>
    rw [he] at h
    have hv : v ∈ e :: es := List.get?_mem h
    rw [← he] at hv
    have := List.of_mem_filter hv
    simp only [Bool.and_eq_true, bne_iff_ne, ne_eq, Bool.not_eq_true'] at this
    exact this.1.1

theorem findOptimalPartnerNoneAll (user : GUser) (avail : List GUser) (r : Nat)
    (h : findOptimalPartner user avail r = none) :
    ∀ v ∈ avail, v.id = user.id := by
  unfold findOptimalPartner at h
  cases he : eligiblePartners user avail with
  | nil =>
    rw [he] at h
    intro v hv
    have := List.find?_eq_none.mp h v hv
    simpa using this
  | cons e es =>
    rw [he] at h
    exfalso
    have hlt : r % (e :: es).length < (e :: es).length :=
      Nat.mod_lt _ (by simp)
    rw [List.get?_eq_none] at h
    omega

theorem assignPairRolesCases (uA uB : GUser) (cA cB : Bool) :
    assignPairRoles uA uB cA cB = (Role.B, Role.A)
      ∨ assignPairRoles uA uB cA cB = (Role.A, Role.B) := by
  unfold assignPairRoles
  set pA := shouldPlayerBeBuyer uA cA
  set pB := shouldPlayerBeBuyer uB cB
  by_cases h : pA == pB
  · simp only [h, if_pos]
    split
    · exact Or.inl rfl
    · exact Or.inr rfl
  · simp only [h, Bool.false_eq_true, if_false]
    have hne : pA ≠ pB := by simpa using h
    cases hpA : pA <;> cases hpB : pB <;> simp_all

/-- The list of participant ids appearing in a pair list. -/
def pairIds (ps : List (GUser × GUser)) : List Nat :=
  ps.flatMap (fun pr => [pr.1.id, pr.2.id])

/-- Master induction over the pairing loop: with a pool of distinct ids it
produces `⌊n/2⌋` pairs of distinct pool members with one Buyer and one
Seller each, no id repeated across pairs, and every produced user record
carries the `confirmPrice` of the pool record with its id. -/
theorem cgpGoProps (pick : Nat → Nat) (cA cB : Nat → Bool) :
    ∀ (fuel : Nat) (k : Nat) (avail : List GUser),
      avail.length ≤ fuel →
      (avail.map (·.id)).Nodup →
      (createGamePairsGo pick cA cB fuel k avail).length = avail.length / 2
      ∧ (∀ pr ∈ createGamePairsGo pick cA cB fuel k avail,
          pr.1.id ≠ pr.2.id
          ∧ pr.1.id ∈ avail.map (·.id)
          ∧ pr.2.id ∈ avail.map (·.id)
          ∧ ((pr.1.role = some Role.B ∧ pr.2.role = some Role.A)
              ∨ (pr.1.role = some Role.A ∧ pr.2.role = some Role.B))
          ∧ (∃ u ∈ avail, u.id = pr.1.id ∧ u.confirmPrice = pr.1.confirmPrice)
          ∧ (∃ u ∈ avail, u.id = pr.2.id ∧ u.confirmPrice = pr.2.confirmPrice))
      ∧ (pairIds (createGamePairsGo pick cA cB fuel k avail)).Nodup := by
  intro fuel
  induction fuel with
  | zero =>
    intro k avail hf hnd
    have h0 : avail = [] := List.length_eq_zero.mp (Nat.le_zero.mp hf)
    subst h0
    refine ⟨rfl, ?_, ?_⟩
    · intro pr h; cases h
    · simp [pairIds, createGamePairsGo]
  | succ n ih =>
    intro k avail hf hnd
    by_cases h2 : 2 ≤ avail.length
    · have hne : avail ≠ [] := by
        intro h; rw [h] at h2; simp at h2
      obtain ⟨userA, hA⟩ : ∃ a, avail.getLast? = some a := by
        cases hg : avail.getLast? with
        | none => exact absurd (List.getLast?_eq_none_iff.mp hg) hne
        | some a => exact ⟨a, rfl⟩
      have hsplit : avail.dropLast ++ [userA] = avail := getLastDecomp _ _ hA
      obtain ⟨dl, hdl⟩ : ∃ dl, avail.dropLast = dl := ⟨_, rfl⟩
      rw [hdl] at hsplit
      subst hsplit
      have hm : 1 ≤ dl.length := by
        simp only [List.length_append, List.length_cons, List.length_nil] at h2
        omega
      have hndSplit : (dl.map (·.id)).Nodup ∧ userA.id ∉ dl.map (·.id) := by
        rw [List.map_append] at hnd
        rw [List.nodup_append] at hnd
        refine ⟨hnd.1, ?_⟩
        intro hmem
        exact hnd.2.2 hmem (by simp)
      cases hB : findOptimalPartner userA dl (pick k) with
      | none =>
        exfalso
        have hall := findOptimalPartnerNoneAll _ _ _ hB
        obtain ⟨v, hv⟩ : ∃ v, v ∈ dl := by
          cases hdlc : dl with
          | nil => rw [hdlc] at hm; simp at hm
          | cons v vs => exact ⟨v, by simp [hdlc]⟩
        have hvid := hall v hv
        exact hndSplit.2 (hvid ▸ List.mem_map_of_mem (·.id) hv)
      | some userB =>
        have hred : createGamePairsGo pick cA cB (n + 1) k (dl ++ [userA])
            = (recordPairing userA (assignPairRoles userA userB (cA k) (cB k)).1 userB.id,
               recordPairing userB (assignPairRoles userA userB (cA k) (cB k)).2 userA.id)
                :: createGamePairsGo pick cA cB n (k + 1) (eraseById dl userB.id) := by
          simp only [createGamePairsGo, if_pos h2, List.getLast?_concat,
            List.dropLast_concat, hB]
        have hmemB : userB ∈ dl := findOptimalPartnerMem _ _ _ _ hB
        have hneB : userB.id ≠ userA.id := findOptimalPartnerNe _ _ _ _ hB
        have hmemBid : userB.id ∈ dl.map (·.id) := List.mem_map_of_mem (·.id) hmemB
        have hEids : (eraseById dl userB.id).map (·.id) = (dl.map (·.id)).erase userB.id :=
          eraseById_map_id userB.id dl
        have hElen : (eraseById dl userB.id).length = dl.length - 1 := by
          have h1 : ((eraseById dl userB.id).map (·.id)).length
              = ((dl.map (·.id)).erase userB.id).length := by rw [hEids]
          rw [List.length_map, List.length_erase_of_mem hmemBid, List.length_map] at h1
          exact h1
        have hEnodup : ((eraseById dl userB.id).map (·.id)).Nodup := by
          rw [hEids]; exact hndSplit.1.erase _
        have hfuel : (eraseById dl userB.id).length ≤ n := by
          simp only [List.length_append, List.length_cons, List.length_nil] at hf
          omega
        obtain ⟨ihLen, ihMem, ihNodup⟩ := ih (k + 1) (eraseById dl userB.id) hfuel hEnodup
        have hEsub : ∀ x, x ∈ (eraseById dl userB.id).map (·.id) → x ∈ dl.map (·.id) := by
          intro x hx
          rw [hEids] at hx
          exact (List.erase_sublist _ _).subset hx
        have hBnotE : userB.id ∉ (eraseById dl userB.id).map (·.id) := by
          rw [hEids]
          intro hx
          exact ((hndSplit.1.mem_erase_iff.mp hx).1 rfl)
        refine ⟨?_, ?_, ?_⟩
        · rw [hred]
          simp only [List.length_cons, ihLen, hElen, List.length_append,
            List.length_cons, List.length_nil]
          omega
        · intro pr hpr
          rw [hred] at hpr
          rcases List.mem_cons.mp hpr with hpr | hpr
          · subst hpr
            refine ⟨by simpa [recordPairing] using hneB.symm, ?_, ?_, ?_, ?_, ?_⟩
            · show userA.id ∈ (dl ++ [userA]).map (·.id)
              rw [List.map_append]
              exact List.mem_append_right _ (by simp)
            · show userB.id ∈ (dl ++ [userA]).map (·.id)
              rw [List.map_append]
              exact List.mem_append_left _ hmemBid
            · rcases assignPairRolesCases userA userB (cA k) (cB k) with hc | hc <;>
                rw [hc] <;> simp [recordPairing]
            · exact ⟨userA, by simp, rfl, rfl⟩
            · exact ⟨userB, List.mem_append_left _ hmemB, rfl, rfl⟩
          · obtain ⟨hid, hm1, hm2, hroles, hp1, hp2⟩ := ihMem pr hpr
            refine ⟨hid, ?_, ?_, hroles, ?_, ?_⟩
            · rw [List.map_append]
              exact List.mem_append_left _ (hEsub _ hm1)
            · rw [List.map_append]
              exact List.mem_append_left _ (hEsub _ hm2)
            · obtain ⟨u, hu, h1, h3⟩ := hp1
              exact ⟨u, List.mem_append_left _ (eraseById_subset _ _ _ hu), h1, h3⟩
            · obtain ⟨u, hu, h1, h3⟩ := hp2
              exact ⟨u, List.mem_append_left _ (eraseById_subset _ _ _ hu), h1, h3⟩
        · rw [hred]
          show (userA.id :: userB.id
            :: pairIds (createGamePairsGo pick cA cB n (k + 1)
                (eraseById dl userB.id))).Nodup
          rw [List.nodup_cons, List.nodup_cons]
          have hsubRec : ∀ x, x ∈ pairIds (createGamePairsGo pick cA cB n (k + 1)
              (eraseById dl userB.id)) → x ∈ (eraseById dl userB.id).map (·.id) := by
            intro x hx
            simp only [pairIds, List.mem_flatMap] at hx
            obtain ⟨pr, hpr, hxin⟩ := hx
            obtain ⟨_, hm1, hm2, _, _, _⟩ := ihMem pr hpr
            rcases List.mem_cons.mp hxin with h | h
            · exact h ▸ hm1
            · simp only [List.mem_cons, List.mem_nil_iff, or_false] at h
              exact h ▸ hm2
          refine ⟨?_, ?_, ihNodup⟩
          · show userA.id ∉ userB.id :: pairIds _
            rw [List.mem_cons]
            rintro (h | h)
            · exact hneB h.symm
            · exact hndSplit.2 (hEsub _ (hsubRec _ h))
          · show userB.id ∉ pairIds _
            intro h
            exact hBnotE (hsubRec _ h)
    · have hgo : createGamePairsGo pick cA cB (n + 1) k avail = [] := by
        simp only [createGamePairsGo, if_neg h2]
      rw [hgo]
      refine ⟨?_, ?_, ?_⟩
      · have : avail.length / 2 = 0 := by omega
        simp [this]
      · intro pr h; cases h
      · simp [pairIds]

/-- Matchmaking properties carried through the shuffle: `createGamePairs`
inherits the loop properties for any pool with distinct ids. -/
theorem createGamePairsProps (sh pick : Nat → Nat) (cA cB : Nat → Bool)
    (pool : List GUser) (hnd : (pool.map (·.id)).Nodup) :
    (createGamePairs sh pick cA cB pool).length = pool.length / 2
    ∧ (∀ pr ∈ createGamePairs sh pick cA cB pool,
        pr.1.id ≠ pr.2.id
        ∧ pr.1.id ∈ pool.map (·.id)
        ∧ pr.2.id ∈ pool.map (·.id)
        ∧ ((pr.1.role = some Role.B ∧ pr.2.role = some Role.A)
            ∨ (pr.1.role = some Role.A ∧ pr.2.role = some Role.B))
        ∧ (∃ u ∈ pool, u.id = pr.1.id ∧ u.confirmPrice = pr.1.confirmPrice)
        ∧ (∃ u ∈ pool, u.id = pr.2.id ∧ u.confirmPrice = pr.2.confirmPrice))
    ∧ (pairIds (createGamePairs sh pick cA cB pool)).Nodup := by
  simp only [createGamePairs]
  have hperm : List.Perm (fisherYates sh pool) pool := fisherYates_perm sh pool
  have hpermIds : List.Perm ((fisherYates sh pool).map (·.id)) (pool.map (·.id)) :=
    hperm.map _
  have hnd2 : ((fisherYates sh pool).map (·.id)).Nodup := hpermIds.nodup_iff.mpr hnd
  obtain ⟨hLen, hMem, hNodup⟩ :=
    cgpGoProps pick cA cB (fisherYates sh pool).length 0 (fisherYates sh pool)
      (Nat.le_refl _) hnd2
  refine ⟨?_, ?_, hNodup⟩
  · rw [hLen, hperm.length_eq]
  · intro pr hpr
    obtain ⟨h1, h2, h3, h4, h5, h6⟩ := hMem pr hpr
    refine ⟨h1, hpermIds.mem_iff.mp h2, hpermIds.mem_iff.mp h3, h4, ?_, ?_⟩
    · obtain ⟨u, hu, ha, hb⟩ := h5
      exact ⟨u, hperm.mem_iff.mp hu, ha, hb⟩
    · obtain ⟨u, hu, ha, hb⟩ := h6
      exact ⟨u, hperm.mem_iff.mp hu, ha, hb⟩

/-! ## Session state and the socket event handlers.

`GameState` models the module-level tables `users` and `pairs` of
`server.js` (line 192-195).  Prices and timestamps are exact numbers; JS
`Date` values become natural-number milliseconds. -/

/-- Deal record built by `GameAnalytics.createDealData`
(`src/analytics.js`): price, confirmation time, start time, duration in
whole seconds (`Math.round((end - start) / 1000)`), participant ids and
the success flag. -/
structure Deal where
  price : ℚ
  confirmedAt : Nat
  startedAt : Nat
  durationSeconds : Nat
  userA : Nat
  userB : Nat
  success : Bool
  deriving DecidableEq, Repr

/-- The per-pair `latestOffers` object `{A: null, B: null}`; `offNull`
models the stray `latestOffers[null]` key JS would create if a roleless
user's message carried an offer. -/
structure LOffers where
  offA : Option ℚ
  offB : Option ℚ
  offNull : Option ℚ
  deriving DecidableEq, Repr

/-- A chat-message payload as pushed onto `pair.messages`
(`server.js` 895-905). -/
structure Msg where
  userId : Nat
  userName : String
  role : Option Role
  message : String
  offer : Option ℚ
  numbersFound : List Cand
  timestamp : Nat
  deriving DecidableEq, Repr

/-- A pair object (`server.js` 1025-1035). -/
structure GPair where
  id : Nat
  roomId : String
  userAId : Nat
  userBId : Nat
  messages : List Msg
  product : String
  latestOffers : LOffers
  finalDeal : Option Deal
  startedAt : Nat
  endedAt : Option Nat
  ended : Bool
  deriving DecidableEq, Repr

/-- The in-memory stores `users` and `pairs` (`server.js` 192-195).
A `GPair` stores the ids of its two user objects; JS aliasing of
`pair.userA` with `users[id]` is modelled by looking users up by id. -/
structure GameState where
  users : List GUser
  pairs : List GPair
  deriving DecidableEq, Repr

def findUser (st : GameState) (uid : Nat) : Option GUser :=
  st.users.find? (fun u => u.id == uid)

def findPair (st : GameState) (pid : Nat) : Option GPair :=
  st.pairs.find? (fun p => p.id == pid)

/-- Apply a field mutation to the user object with the given id. -/
def setUser (st : GameState) (uid : Nat) (f : GUser → GUser) : GameState :=
  { st with users := st.users.map (fun u => if u.id == uid then f u else u) }

/-- Apply a field mutation to the pair object with the given id. -/
def setPair (st : GameState) (pid : Nat) (f : GPair → GPair) : GameState :=
  { st with pairs := st.pairs.map (fun p => if p.id == pid then f p else p) }

/-- Notifications emitted back through the transport layer. -/
inductive Ev where
  | errMsg (toUser : Nat) (msg : String)
  | dealConfirmedPair (pairId : Nat) (price : ℚ)
  | dealPending (toUser : Nat) (price : ℚ)
  | partnerConfirming (toUser : Nat) (price : ℚ)
  | chatLogPair (pairId : Nat) (m : Msg)
  | chatAck (toUser : Nat) (offer : Option ℚ)
  deriving DecidableEq, Repr

/-- `GameAnalytics.createDealData(pair, price)`: duration is the rounded
second count between the pair's start and `now` (milliseconds). -/
def createDealData (p : GPair) (price : ℚ) (now : Nat) : Deal :=
  { price := price, confirmedAt := now, startedAt := p.startedAt,
    durationSeconds := (now - p.startedAt + 500) / 1000,
    userA := p.userAId, userB := p.userBId, success := true }

/-- The `confirmDeal` handler (`server.js` 1208-1283).  The submitter's
`confirmPrice` is stored first; if the counterpart's stored price equals
the submission the pair's `finalDeal` is (re)written and the pair room is
notified, otherwise the submitter gets `dealPending` and the counterpart —
when connected — `partnerConfirming`.  There is no check of an existing
`finalDeal`. -/
def confirmDeal (st : GameState) (submitter : Nat) (price : ℚ) (now : Nat) :
    GameState × List Ev :=
  match findUser st submitter with
  | none => (st, [Ev.errMsg submitter "Not in a pair"])
  | some user =>
    match user.pairId with
    | none => (st, [Ev.errMsg submitter "Not in a pair"])
    | some pid =>
      match findPair st pid with
      | none => (st, [Ev.errMsg submitter "Pair not found"])
      | some pair =>
        let st1 := setUser st submitter (fun u => { u with confirmPrice := some price })
        let otherId := if pair.userAId == submitter then pair.userBId else pair.userAId
        match findUser st1 otherId with
        | none => (st1, [])
        | some otherUser =>
          if otherUser.confirmPrice == some price then
            (setPair st1 pid (fun p => { p with finalDeal := some (createDealData pair price now) }),
             [Ev.dealConfirmedPair pid price])
          else
            (st1, Ev.dealPending submitter price ::
              (if otherUser.socketId.isSome then [Ev.partnerConfirming otherId price] else []))

/-- Run a sequence of `confirmDeal` submissions `(submitter, price, now)`. -/
def runConfirms (st : GameState) (subs : List (Nat × ℚ × Nat)) : GameState :=
  subs.foldl (fun s x => (confirmDeal s x.1 x.2.1 x.2.2).1) st

/-- The `disconnect` handler (`server.js` 1387-1399): the user is kept for
reconnection and only `socketId` is cleared. -/
def serverDisconnect (st : GameState) (uid : Nat) : GameState :=
  match findUser st uid with
  | none => st
  | some _ => setUser st uid (fun u => { u with socketId := none })

/-- Log lines written around the persistence calls of the `chatMessage`
handler (`server.js` 911-941). -/
inductive LogE where
  | offersUpdated
  | offersUpdateError
  | messageSaved
  | messageSaveError
  deriving DecidableEq, Repr

/-- Whether a handler lets the process continue or terminates it. -/
inductive ProcAct where
  | cont
  | exit (code : Int)
  deriving DecidableEq, Repr

/-- The connection pool's error-event handler
(`src/database.js` 22-25): `console.error(...)` then `process.exit(-1)`. -/
def poolOnError (errText : String) : List String × ProcAct :=
  (["Database connection error: " ++ errText], ProcAct.exit (-1))

/-- `pair.latestOffers[role] = offer` with a JS string key: role `"A"`,
`"B"` or the stray `"null"`. -/
def setOffer (lo : LOffers) (r : Option Role) (v : ℚ) : LOffers :=
  match r with
  | some Role.A => { lo with offA := some v }
  | some Role.B => { lo with offB := some v }
  | none => { lo with offNull := some v }

/-- The `chatMessage` handler (`server.js` 874-968): append the payload to
the in-memory pair, update `latestOffers` when an offer was extracted, and
mirror both to the store inside `try`/`catch` blocks whose failures
(modelled by the two flags) are only logged — the in-memory mutations are
never rolled back and the handler always lets the process continue. -/
def chatMessage (st : GameState) (uid : Nat) (text : String) (now : Nat)
    (updateOffersFails saveMessageFails : Bool) :
    GameState × List Ev × List LogE × ProcAct :=
  match findUser st uid with
  | none => (st, [Ev.errMsg uid "Not in a pair"], [], ProcAct.cont)
  | some user =>
    match user.pairId with
    | none => (st, [Ev.errMsg uid "Not in a pair"], [], ProcAct.cont)
    | some pid =>
      match findPair st pid with
      | none => (st, [Ev.errMsg uid "Pair not found"], [], ProcAct.cont)
      | some _pair =>
        let offerData := extractNumbersWithRegex text user.role
        let payload : Msg :=
          { userId := user.id, userName := user.name, role := user.role,
            message := text, offer := offerData.offer,
            numbersFound := offerData.numbersFound, timestamp := now }
        let st1 := setPair st pid (fun p => { p with messages := p.messages ++ [payload] })
        let stepOffers : GameState × List LogE :=
          match offerData.offer with
          | none => (st1, [])
          | some v =>
            (setPair st1 pid (fun p =>
                { p with latestOffers := setOffer p.latestOffers user.role v }),
             if updateOffersFails then [LogE.offersUpdateError] else [LogE.offersUpdated])
        let logSave := if saveMessageFails then [LogE.messageSaveError] else [LogE.messageSaved]
        (stepOffers.1,
         [Ev.chatLogPair pid payload, Ev.chatAck uid offerData.offer],
         stepOffers.2 ++ logSave,
         ProcAct.cont)

/-- A fresh pair object as built by `moderator:startRound`
(`server.js` 1025-1035). -/
def mkPairObj (pid : Nat) (roomId : String) (a b : GUser) (now : Nat) : GPair :=
  { id := pid, roomId := roomId, userAId := a.id, userBId := b.id,
    messages := [], product := "",
    latestOffers := { offA := none, offB := none, offNull := none },
    finalDeal := none, startedAt := now, endedAt := none, ended := false }

/-- Write a full user record back over the table entry with its id
(modelling in-place mutation of the shared object). -/
def putUser (st : GameState) (u : GUser) : GameState :=
  { st with users := st.users.map (fun x => if x.id == u.id then u else x) }

/-- The per-pair bookkeeping of `moderator:startRound` (`server.js`
1009-1036): store the matchmaking's mutated user objects, stamp their new
`pairId`, and append the fresh pair object. -/
def applyPairs (st : GameState) :
    List (GUser × GUser) → Nat → String → Nat → GameState
  | [], _, _, _ => st
  | (a, b) :: rest, basePid, roomId, now =>
    let a2 := { a with pairId := some basePid }
    let b2 := { b with pairId := some basePid }
    let st1 := putUser (putUser st a2) b2
    let st2 := { st1 with pairs := st1.pairs ++ [mkPairObj basePid roomId a2 b2 now] }
    applyPairs st2 rest (basePid + 1) roomId now

/-- The pair-creation phase of `moderator:startRound` (`server.js`
999-1065) on the pool of user ids passed to `createGamePairs`; pair ids
are `basePid`, `basePid + 1`, … in creation order. -/
def startRoundPairing (st : GameState) (roomId : String) (pool : List Nat)
    (sh pick : Nat → Nat) (cA cB : Nat → Bool) (basePid now : Nat) : GameState :=
  let roomUsers := pool.filterMap (fun i => findUser st i)
  applyPairs st (createGamePairs sh pick cA cB roomUsers) basePid roomId now

/-! ## The earlier in-repo module `src/results.js` (`handleDisconnect`,
lines 163-188) over its own `datastore` state shape. -/

structure MvpUser where
  id : Nat
  roomId : Nat
  partnerId : Option Nat
  status : String
  deriving DecidableEq, Repr

structure MvpRoom where
  id : Nat
  users : List Nat
  waitingQueue : List Nat
  activePairs : List Nat
  deriving DecidableEq, Repr

structure MvpPair where
  pairId : Nat
  users : List Nat
  deriving DecidableEq, Repr

structure MvpState where
  users : List MvpUser
  rooms : List MvpRoom
  pairs : List MvpPair
  deriving DecidableEq, Repr

def mvpFindUser (s : MvpState) (i : Nat) : Option MvpUser :=
  s.users.find? (fun u => u.id == i)

def mvpSetUser (s : MvpState) (i : Nat) (f : MvpUser → MvpUser) : MvpState :=
  { s with users := s.users.map (fun u => if u.id == i then f u else u) }

def mvpSetRoom (s : MvpState) (i : Nat) (f : MvpRoom → MvpRoom) : MvpState :=
  { s with rooms := s.rooms.map (fun r => if r.id == i then f r else r) }

/-- `getPairByUser` (`src/results.js`): first pair containing the user. -/
def getPairByUser (s : MvpState) (uid : Nat) : Option MvpPair :=
  s.pairs.find? (fun p => p.users.contains uid)

/-- `handleDisconnect(userId)` (`src/results.js` 163-188): if paired, the
partner is unlinked, set to `waiting` and queued; the pair is deleted;
finally the user is removed from the room's queue and member set.  Note it
never touches a connectivity flag and deletes the pair outright instead of
marking it abandoned. -/
def handleDisconnect (s : MvpState) (uid : Nat) : MvpState :=
  match mvpFindUser s uid with
  | none => s
  | some user =>
    match s.rooms.find? (fun r => r.id == user.roomId) with
    | none => s
    | some _room =>
      let s1 :=
        match getPairByUser s uid with
        | none => s
        | some pair =>
          let sPartner :=
            match pair.users.find? (fun u => u != uid) with
            | none => s
            | some otherId =>
              match mvpFindUser s otherId with
              | none => s
              | some other =>
                let sU := mvpSetUser s otherId
                  (fun o => { o with partnerId := none, status := "waiting" })
                mvpSetRoom sU user.roomId (fun r =>
                  if r.waitingQueue.contains other.id then r
                  else { r with waitingQueue := r.waitingQueue ++ [other.id] })
          let sDel := { sPartner with
            pairs := sPartner.pairs.filter (fun p => p.pairId != pair.pairId) }
          mvpSetRoom sDel user.roomId (fun r =>
            { r with activePairs := r.activePairs.filter (fun q => q != pair.pairId) })
      mvpSetRoom s1 user.roomId (fun r =>
        { r with waitingQueue := r.waitingQueue.filter (fun q => q != uid),
                 users := r.users.filter (fun q => q != uid) })

/-! ## Hybrid persistence cache (`src/persistence.js`, `src/database.js`).

Rows and cached objects are modelled as ordered key-value dictionaries of
dynamic JS values; a key that is absent is JS `undefined`, a present
`jnull` is JS `null` — the distinction matters for the
`!== undefined` checks of `transformUpdatesForDb` and the `||` defaults of
`transformDbUser`. -/

inductive JVal where
  | jnull
  | jnum (n : Int)
  | jstr (s : String)
  | jbool (b : Bool)
  | jarr (elems : List String)
  deriving DecidableEq, Repr

abbrev Dict := List (String × JVal)

/-- JS property read defaulting to `null` (used for SQL rows, where every
column is present and SQL `NULL` maps to `jnull`). -/
def dGet (d : Dict) (k : String) : JVal :=
  ((d.find? (fun kv => kv.1 == k)).map Prod.snd).getD JVal.jnull

/-- JS property read distinguishing `undefined` (absent key). -/
def dGetU (d : Dict) (k : String) : Option JVal :=
  (d.find? (fun kv => kv.1 == k)).map Prod.snd

/-- JS property write: update in place, else append (insertion order is
preserved, as for JS object keys). -/
def dSet (d : Dict) (k : String) (v : JVal) : Dict :=
  if (d.find? (fun kv => kv.1 == k)).isSome then
    d.map (fun kv => if kv.1 == k then (k, v) else kv)
  else d ++ [(k, v)]

/-- `Object.assign(target, src)` / an SQL `UPDATE ... SET` of the listed
columns. -/
def dMerge (target src : Dict) : Dict :=
  src.foldl (fun acc kv => dSet acc kv.1 kv.2) target

/-- JS truthiness of the modelled values. -/
def truthy : JVal → Bool
  | JVal.jnull => false
  | JVal.jnum n => n != 0
  | JVal.jstr s => s != ""
  | JVal.jbool b => b
  | JVal.jarr _ => true

/-- JS `a || b`. -/
def jor (a b : JVal) : JVal := if truthy a then a else b

/-- `transformUpdatesForDb(updates, type)` (`src/persistence.js` 240-274):
copy keys that contain `_` or are `status`/`name`/`description` verbatim,
then translate the per-type camelCase fields; everything else is silently
dropped. -/
def transformUpdatesForDb (updates : Dict) (type : String) : Dict :=
  let direct := updates.filter (fun kv =>
    kv.1.toList.contains '_' || kv.1 == "status" || kv.1 == "name" || kv.1 == "description")
  let fieldMap : List (String × String) :=
    if type == "user" then
      [("surveyResponses", "survey_responses"), ("surveyCompleted", "survey_completed"),
       ("currentRound", "current_round"), ("completedRounds", "completed_rounds"),
       ("completedDeals", "completed_deals"), ("previousPartners", "previous_partners"),
       ("roleHistory", "role_history"), ("roomId", "room_id"),
       ("socketId", "socket_id"), ("pairId", "pair_id")]
    else if type == "room" then
      [("currentRound", "current_round"), ("imageUrl", "image_url")]
    else if type == "pair" then
      [("finalDeal", "final_deal"), ("latestOffers", "latest_offers")]
    else []
  fieldMap.foldl (fun acc kv =>
    match dGetU updates kv.1 with
    | some v => dSet acc kv.2 v
    | none => acc) direct

/-- `transformDbUser(dbUser)` (`src/persistence.js` 58-75): rebuild the
cache object from the row's columns, with `|| 0` / `|| []` defaults and
`socketId` forced to `null` on load. -/
def transformDbUser (row : Dict) : Dict :=
  [("id", dGet row "id"),
   ("name", dGet row "name"),
   ("surveyResponses", dGet row "survey_responses"),
   ("surveyCompleted", dGet row "survey_completed"),
   ("createdAt", dGet row "created_at"),
   ("currentRound", jor (dGet row "current_round") (JVal.jnum 0)),
   ("completedRounds", jor (dGet row "completed_rounds") (JVal.jnum 0)),
   ("completedDeals", jor (dGet row "completed_deals") (JVal.jnum 0)),
   ("previousPartners", jor (dGet row "previous_partners") (JVal.jarr [])),
   ("roleHistory", jor (dGet row "role_history") (JVal.jarr [])),
   ("roomId", dGet row "room_id"),
   ("socketId", JVal.jnull),
   ("role", dGet row "role"),
   ("pairId", dGet row "pair_id")]

/-- The row produced by `Database.createUser` (`src/database.js` 43-59):
the four inserted columns plus the schema defaults of
`database/schema.sql` (timestamps abstracted to 0). -/
def dbCreateUserRow (uid : JVal) (userData : Dict) : Dict :=
  [("id", uid),
   ("name", dGet userData "name"),
   ("survey_responses", (dGetU userData "surveyResponses").getD JVal.jnull),
   ("survey_completed", (dGetU userData "surveyCompleted").getD (JVal.jbool false)),
   ("created_at", JVal.jnum 0),
   ("current_round", JVal.jnum 0),
   ("completed_rounds", JVal.jnum 0),
   ("completed_deals", JVal.jnum 0),
   ("previous_partners", JVal.jarr []),
   ("role_history", JVal.jarr []),
   ("room_id", (dGetU userData "roomId").getD JVal.jnull),
   ("socket_id", JVal.jnull),
   ("role", JVal.jnull),
   ("pair_id", JVal.jnull),
   ("is_moderator", JVal.jbool false),
   ("last_active", JVal.jnum 0)]

/-- `persistence.createUser` (`src/persistence.js` 78-83): insert the row,
transform it, cache it.  Returns (durable row, cached object). -/
def persistCreateUser (uid : JVal) (userData : Dict) : Dict × Dict :=
  let row := dbCreateUserRow uid userData
  (row, transformDbUser row)

/-- `persistence.updateUser` (`src/persistence.js` 102-114): translate the
updates, `UPDATE ... SET` them into the durable row, then `Object.assign`
the raw updates onto the cached object.  When every update field is
dropped by the translation, `Database.updateUser` builds an invalid query
(`UPDATE users SET , last_active = ...`) and the awaited write throws
before the cache is touched: `none`. -/
def persistUpdateUser (row cacheU : Dict) (updates : Dict) : Option (Dict × Dict) :=
  match transformUpdatesForDb updates "user" with
  | [] => none
  | kv :: kvs => some (dMerge row (kv :: kvs), dMerge cacheU updates)

/-- A simulated restart: the cache is empty, so `getUser` reloads the
entity from its durable row through `transformDbUser`
(`src/persistence.js` 85-100). -/
def rereadUserAfterRestart (row : Dict) : Dict := transformDbUser row

/-! ## Lookup/update lemmas for the state tables. -/

theorem find?_map_pred {α : Type} (p : α → Bool) (g : α → α)
    (h : ∀ x, p (g x) = p x) :
    ∀ l : List α, (l.map g).find? p = (l.find? p).map g := by
  intro l
  induction l with
  | nil => rfl
  | cons x xs ih =>
    simp only [List.map_cons, List.find?_cons]
    rw [h x]
    cases p x <;> simp [ih]

theorem findUser_setUser (st : GameState) (uid vid : Nat) (f : GUser → GUser)
    (hf : ∀ u, (f u).id = u.id) :
    findUser (setUser st uid f) vid
      = (findUser st vid).map (fun u => if u.id == uid then f u else u) := by
  unfold findUser setUser
  apply find?_map_pred
  intro x
  by_cases h : x.id == uid
  · simp only [h, if_pos]
    rw [hf x]
  · simp [h]

theorem findUser_id (st : GameState) (vid : Nat) (u : GUser)
    (h : findUser st vid = some u) : u.id = vid := by
  unfold findUser at h
  have := List.find?_some h
  simpa using this

theorem findPair_id (st : GameState) (q : Nat) (P : GPair)
    (h : findPair st q = some P) : P.id = q := by
  unfold findPair at h
  have := List.find?_some h
  simpa using this

theorem findUser_setUser_ne (st : GameState) (uid vid : Nat) (f : GUser → GUser)
    (hf : ∀ u, (f u).id = u.id) (h : vid ≠ uid) :
    findUser (setUser st uid f) vid = findUser st vid := by
  rw [findUser_setUser st uid vid f hf]
  cases hv : findUser st vid with
  | none => rfl
  | some u =>
    have hid : u.id = vid := findUser_id st vid u hv
    simp [hid, h]

theorem findUser_setUser_self (st : GameState) (uid : Nat) (f : GUser → GUser)
    (hf : ∀ u, (f u).id = u.id) :
    findUser (setUser st uid f) uid = (findUser st uid).map f := by
  rw [findUser_setUser st uid uid f hf]
  cases hv : findUser st uid with
  | none => rfl
  | some u =>
    have hid : u.id = uid := findUser_id st uid u hv
    simp [hid]

theorem findPair_setUser (st : GameState) (uid : Nat) (f : GUser → GUser) (q : Nat) :
    findPair (setUser st uid f) q = findPair st q := rfl

theorem findUser_setPair (st : GameState) (pid : Nat) (f : GPair → GPair) (v : Nat) :
    findUser (setPair st pid f) v = findUser st v := rfl

theorem findPair_setPair (st : GameState) (pid q : Nat) (f : GPair → GPair)
    (hf : ∀ p, (f p).id = p.id) :
    findPair (setPair st pid f) q
      = (findPair st q).map (fun p => if p.id == pid then f p else p) := by
  unfold findPair setPair
  apply find?_map_pred
  intro x
  by_cases h : x.id == pid
  · simp only [h, if_pos]
    rw [hf x]
  · simp [h]

theorem findPair_setPair_self (st : GameState) (pid : Nat) (f : GPair → GPair)
    (hf : ∀ p, (f p).id = p.id) :
    findPair (setPair st pid f) pid = (findPair st pid).map f := by
  rw [findPair_setPair st pid pid f hf]
  cases hv : findPair st pid with
  | none => rfl
  | some P =>
    have hid : P.id = pid := findPair_id st pid P hv
    simp [hid]

theorem findPair_setPair_ne (st : GameState) (pid q : Nat) (f : GPair → GPair)
    (hf : ∀ p, (f p).id = p.id) (h : q ≠ pid) :
    findPair (setPair st pid f) q = findPair st q := by
  rw [findPair_setPair st pid q f hf]
  cases hv : findPair st q with
  | none => rfl
  | some P =>
    have hid : P.id = q := findPair_id st q P hv
    simp [hid, h]

/-- The price a participant's `confirmPrice` holds after a submission
sequence: the price of their most recent submission, else the default. -/
def lastPrice (uid : Nat) (subs : List (Nat × ℚ × Nat)) (dflt : Option ℚ) : Option ℚ :=
  subs.foldl (fun acc s => if s.1 == uid then some s.2.1 else acc) dflt

/-- The well-formedness facts about one pair that `confirmDeal` preserves:
both participants exist, are linked to the pair, and the pair's user ids
are exactly the two (in either slot order). -/
def pairedSetup (st : GameState) (pid a b : Nat)
    (ua ub : GUser) (p : GPair) : Prop :=
  a ≠ b
  ∧ findUser st a = some ua ∧ ua.pairId = some pid
  ∧ findUser st b = some ub ∧ ub.pairId = some pid
  ∧ findPair st pid = some p
  ∧ ((p.userAId = a ∧ p.userBId = b) ∨ (p.userAId = b ∧ p.userBId = a))

theorem cpId (pr : ℚ) : ∀ u : GUser, (({ u with confirmPrice := some pr } : GUser)).id = u.id :=
  fun _ => rfl

theorem fdId (d : Option Deal) : ∀ p : GPair, (({ p with finalDeal := d } : GPair)).id = p.id :=
  fun _ => rfl

/-- One `confirmDeal` step by an arbitrary submitter keeps the pair
structure intact: the two linked users change at most their
`confirmPrice` (and only for the submitter), and the pair changes at most
its `finalDeal`. -/
theorem confirmDeal_step (st : GameState) (pid a b : Nat) (ua ub : GUser) (p : GPair)
    (hs : pairedSetup st pid a b ua ub p) (w : Nat) (pr : ℚ) (t : Nat) :
    findUser (confirmDeal st w pr t).1 a
      = some (if w = a then { ua with confirmPrice := some pr } else ua)
    ∧ findUser (confirmDeal st w pr t).1 b
      = some (if w = b then { ub with confirmPrice := some pr } else ub)
    ∧ ∃ d, findPair (confirmDeal st w pr t).1 pid = some { p with finalDeal := d } := by
  obtain ⟨hab, hua, hpa, hub, hpb, hP, hids⟩ := hs
  by_cases hwa : w = a
  · subst hwa
    rcases hids with ⟨hA1, hB1⟩ | ⟨hA1, hB1⟩
    · have hbeq : (p.userAId == w) = true := by simp [hA1]
      have hother : findUser (setUser st w (fun u => { u with confirmPrice := some pr })) b
          = some ub := by
        rw [findUser_setUser_ne _ _ _ _ (cpId pr) (Ne.symm hab)]
        exact hub
      simp only [confirmDeal, hua, hpa, hP, hbeq, hB1, hother, if_true, if_false,
        Bool.false_eq_true, reduceIte]
      by_cases hm : (ub.confirmPrice == some pr) = true
      · rw [if_pos hm]
        refine ⟨?_, ?_, some (createDealData p pr t), ?_⟩
        · rw [findUser_setPair, findUser_setUser_self _ _ _ (cpId pr), hua]
          simp [hpa]
        · rw [findUser_setPair, hother]
          simp [Ne.symm hab, hab, hpb]
        · rw [findPair_setPair_self _ _ _ (fdId _), findPair_setUser, hP, ← hB1]
          rfl
      · rw [if_neg hm]
        refine ⟨?_, ?_, p.finalDeal, ?_⟩
        · rw [findUser_setUser_self _ _ _ (cpId pr), hua]
          simp [hpa]
        · rw [hother]
          simp [Ne.symm hab, hab, hpb]
        · rw [findPair_setUser, hP, ← hB1]
    · have hbeq : (b == w) = false := by
        simp
        exact Ne.symm hab
      have hother : findUser (setUser st w (fun u => { u with confirmPrice := some pr })) b
          = some ub := by
        rw [findUser_setUser_ne _ _ _ _ (cpId pr) (Ne.symm hab)]
        exact hub
      simp only [confirmDeal, hua, hpa, hP, hbeq, hA1, hother, if_true, if_false,
        Bool.false_eq_true, reduceIte]
      by_cases hm : (ub.confirmPrice == some pr) = true
      · rw [if_pos hm]
        refine ⟨?_, ?_, some (createDealData p pr t), ?_⟩
        · rw [findUser_setPair, findUser_setUser_self _ _ _ (cpId pr), hua]
          simp [hpa]
        · rw [findUser_setPair, hother]
          simp [Ne.symm hab, hab, hpb]
        · rw [findPair_setPair_self _ _ _ (fdId _), findPair_setUser, hP, ← hA1]
          rfl
      · rw [if_neg hm]
        refine ⟨?_, ?_, p.finalDeal, ?_⟩
        · rw [findUser_setUser_self _ _ _ (cpId pr), hua]
          simp [hpa]
        · rw [hother]
          simp [Ne.symm hab, hab, hpb]
        · rw [findPair_setUser, hP, ← hA1]
  · by_cases hwb : w = b
    · subst hwb
      rcases hids with ⟨hA1, hB1⟩ | ⟨hA1, hB1⟩
      · have hbeq : (a == w) = false := by
          simp
          exact Ne.symm hwa
        have hother : findUser (setUser st w (fun u => { u with confirmPrice := some pr })) a
            = some ua := by
          rw [findUser_setUser_ne _ _ _ _ (cpId pr) (Ne.symm hwa)]
          exact hua
        simp only [confirmDeal, hub, hpb, hP, hbeq, hA1, hother, if_true, if_false,
          Bool.false_eq_true, reduceIte]
        by_cases hm : (ua.confirmPrice == some pr) = true
        · rw [if_pos hm]
          refine ⟨?_, ?_, some (createDealData p pr t), ?_⟩
          · rw [findUser_setPair, hother]
            simp [hwa]
          · rw [findUser_setPair, findUser_setUser_self _ _ _ (cpId pr), hub]
            simp [hpb]
          · rw [findPair_setPair_self _ _ _ (fdId _), findPair_setUser, hP, ← hA1]
            rfl
        · rw [if_neg hm]
          refine ⟨?_, ?_, p.finalDeal, ?_⟩
          · rw [hother]
            simp [hwa]
          · rw [findUser_setUser_self _ _ _ (cpId pr), hub]
            simp [hpb]
          · rw [findPair_setUser, hP, ← hA1]
      · have hbeq : (p.userAId == w) = true := by simp [hA1]
        have hother : findUser (setUser st w (fun u => { u with confirmPrice := some pr })) a
            = some ua := by
          rw [findUser_setUser_ne _ _ _ _ (cpId pr) (Ne.symm hwa)]
          exact hua
        simp only [confirmDeal, hub, hpb, hP, hbeq, hB1, hother, if_true, if_false,
          Bool.false_eq_true, reduceIte]
        by_cases hm : (ua.confirmPrice == some pr) = true
        · rw [if_pos hm]
          refine ⟨?_, ?_, some (createDealData p pr t), ?_⟩
          · rw [findUser_setPair, hother]
            simp [hwa]
          · rw [findUser_setPair, findUser_setUser_self _ _ _ (cpId pr), hub]
            simp [hpb]
          · rw [findPair_setPair_self _ _ _ (fdId _), findPair_setUser, hP, ← hB1]
            rfl
        · rw [if_neg hm]
          refine ⟨?_, ?_, p.finalDeal, ?_⟩
          · rw [hother]
            simp [hwa]
          · rw [findUser_setUser_self _ _ _ (cpId pr), hub]
            simp [hpb]
          · rw [findPair_setUser, hP, ← hB1]
    · rw [if_neg hwa, if_neg hwb]
      cases hfw : findUser st w with
      | none =>
        simp only [confirmDeal, hfw]
        exact ⟨hua, hub, p.finalDeal, hP⟩
      | some u =>
        cases hpq : u.pairId with
        | none =>
          simp only [confirmDeal, hfw, hpq]
          exact ⟨hua, hub, p.finalDeal, hP⟩
        | some q =>
          cases hfq : findPair st q with
          | none =>
            simp only [confirmDeal, hfw, hpq, hfq]
            exact ⟨hua, hub, p.finalDeal, hP⟩
          | some p2 =>
            have ha1 : findUser (setUser st w (fun v => { v with confirmPrice := some pr })) a
                = some ua := by
              rw [findUser_setUser_ne _ _ _ _ (cpId pr) (Ne.symm hwa)]
              exact hua
            have hb1 : findUser (setUser st w (fun v => { v with confirmPrice := some pr })) b
                = some ub := by
              rw [findUser_setUser_ne _ _ _ _ (cpId pr) (Ne.symm hwb)]
              exact hub
            simp only [confirmDeal, hfw, hpq, hfq]
            cases hfo : findUser (setUser st w (fun v => { v with confirmPrice := some pr }))
                (if p2.userAId == w then p2.userBId else p2.userAId) with
            | none =>
              simp only [hfo]
              exact ⟨ha1, hb1, p.finalDeal, hP⟩
            | some ou =>
              simp only [hfo]
              by_cases hm : (ou.confirmPrice == some pr) = true
              · rw [if_pos hm]
                by_cases hq : q = pid
                · subst hq
                  have hp2 : p2 = p := Option.some.inj (hfq.symm.trans hP)
                  subst hp2
                  refine ⟨?_, ?_, some (createDealData p2 pr t), ?_⟩
                  · rw [findUser_setPair]
                    exact ha1
                  · rw [findUser_setPair]
                    exact hb1
                  · rw [findPair_setPair_self _ _ _ (fdId _), findPair_setUser, hfq]
                    rfl
                · refine ⟨?_, ?_, p.finalDeal, ?_⟩
                  · rw [findUser_setPair]
                    exact ha1
                  · rw [findUser_setPair]
                    exact hb1
                  · rw [findPair_setPair_ne _ _ _ _ (fdId _) (Ne.symm hq), findPair_setUser, hP]
              · rw [if_neg hm]
                exact ⟨ha1, hb1, p.finalDeal, hP⟩

theorem lastPrice_cons (uid : Nat) (x : Nat × ℚ × Nat) (subs : List (Nat × ℚ × Nat))
    (dflt : Option ℚ) :
    lastPrice uid (x :: subs) dflt
      = lastPrice uid subs (if x.1 == uid then some x.2.1 else dflt) := rfl

theorem pairedSetup_symm {st : GameState} {pid a b : Nat} {ua ub : GUser} {p : GPair}
    (hs : pairedSetup st pid a b ua ub p) : pairedSetup st pid b a ub ua p := by
  obtain ⟨hab, hua, hpa, hub, hpb, hP, hids⟩ := hs
  exact ⟨Ne.symm hab, hub, hpb, hua, hpa, hP, hids.symm⟩

/-- When one linked participant submits, `confirmDeal` reduces to an
explicit case split on whether the counterpart's stored `confirmPrice`
equals the submission. -/
theorem confirmDeal_submit (st : GameState) (pid a b : Nat) (ua ub : GUser) (p : GPair)
    (hs : pairedSetup st pid a b ua ub p) (pr : ℚ) (t : Nat) :
    confirmDeal st a pr t =
      if ub.confirmPrice == some pr then
        (setPair (setUser st a (fun u => { u with confirmPrice := some pr })) pid
           (fun q => { q with finalDeal := some (createDealData p pr t) }),
         [Ev.dealConfirmedPair pid pr])
      else
        (setUser st a (fun u => { u with confirmPrice := some pr }),
         Ev.dealPending a pr ::
           (if ub.socketId.isSome then [Ev.partnerConfirming b pr] else [])) := by
  obtain ⟨hab, hua, hpa, hub, hpb, hP, hids⟩ := hs
  have hother : findUser (setUser st a (fun u => { u with confirmPrice := some pr })) b
      = some ub := by
    rw [findUser_setUser_ne _ _ _ _ (cpId pr) (Ne.symm hab)]
    exact hub
  rcases hids with ⟨hA1, hB1⟩ | ⟨hA1, hB1⟩
  · have hbeq : (p.userAId == a) = true := by simp [hA1]
    simp only [confirmDeal, hua, hpa, hP, hbeq, hB1, hother, if_true, if_false,
      Bool.false_eq_true, reduceIte]
  · have hbeq : (b == a) = false := by
      simp
      exact Ne.symm hab
    simp only [confirmDeal, hua, hpa, hP, hbeq, hA1, hother, if_true, if_false,
      Bool.false_eq_true, reduceIte]

/-- Running any sequence of submissions keeps the pair linkage intact:
each participant's record changes only in `confirmPrice` — which tracks
their own most recent submission — and the pair only in `finalDeal`. -/
theorem runConfirms_track (subs : List (Nat × ℚ × Nat)) :
    ∀ (st : GameState) (pid a b : Nat) (ua ub : GUser) (p : GPair),
    pairedSetup st pid a b ua ub p →
    ∃ d, pairedSetup (runConfirms st subs) pid a b
      { ua with confirmPrice := lastPrice a subs ua.confirmPrice }
      { ub with confirmPrice := lastPrice b subs ub.confirmPrice }
      { p with finalDeal := d } := by
  induction subs with
  | nil =>
    intro st pid a b ua ub p hs
    exact ⟨p.finalDeal, hs⟩
  | cons x subs ih =>
    intro st pid a b ua ub p hs
    obtain ⟨h1, h2, h3⟩ := confirmDeal_step st pid a b ua ub p hs x.1 x.2.1 x.2.2
    obtain ⟨d0, hd0⟩ := h3
    obtain ⟨hab, hua, hpa, hub, hpb, hP, hids⟩ := hs
    have hpa1 : (if x.1 = a then { ua with confirmPrice := some x.2.1 } else ua).pairId
        = some pid := by
      by_cases h : x.1 = a
      · rw [if_pos h]
        exact hpa
      · rw [if_neg h]
        exact hpa
    have hpb1 : (if x.1 = b then { ub with confirmPrice := some x.2.1 } else ub).pairId
        = some pid := by
      by_cases h : x.1 = b
      · rw [if_pos h]
        exact hpb
      · rw [if_neg h]
        exact hpb
    have hs1 : pairedSetup (confirmDeal st x.1 x.2.1 x.2.2).1 pid a b
        (if x.1 = a then { ua with confirmPrice := some x.2.1 } else ua)
        (if x.1 = b then { ub with confirmPrice := some x.2.1 } else ub)
        { p with finalDeal := d0 } :=
      ⟨hab, h1, hpa1, h2, hpb1, hd0, hids⟩
    obtain ⟨d, hfin⟩ := ih (confirmDeal st x.1 x.2.1 x.2.2).1 pid a b _ _ _ hs1
    refine ⟨d, ?_⟩
    have ea : ({ (if x.1 = a then { ua with confirmPrice := some x.2.1 } else ua) with
          confirmPrice := lastPrice a subs
            (if x.1 = a then { ua with confirmPrice := some x.2.1 } else ua).confirmPrice } : GUser)
        = { ua with confirmPrice := lastPrice a (x :: subs) ua.confirmPrice } := by
      rw [lastPrice_cons]
      by_cases h : x.1 = a
      · simp [h]
      · simp [h]
    have eb : ({ (if x.1 = b then { ub with confirmPrice := some x.2.1 } else ub) with
          confirmPrice := lastPrice b subs
            (if x.1 = b then { ub with confirmPrice := some x.2.1 } else ub).confirmPrice } : GUser)
        = { ub with confirmPrice := lastPrice b (x :: subs) ub.confirmPrice } := by
      rw [lastPrice_cons]
      by_cases h : x.1 = b
      · simp [h]
      · simp [h]
    rw [← ea, ← eb]
    exact hfin

/-! ## Concrete fixtures used by the claim witnesses and counterexamples. -/

/-- Observation: the price stored in a pair's `finalDeal`, if any. -/
def dealPriceAt (st : GameState) (pid : Nat) : Option (Option ℚ) :=
  (findPair st pid).map (fun q => q.finalDeal.map Deal.price)

def uW1 : GUser :=
  { id := 1, name := "P1", socketId := some 101, pairId := some 10, role := some Role.A,
    confirmPrice := none, roleHistory := [Role.A], previousPartners := [2] }

def uW2 : GUser :=
  { id := 2, name := "P2", socketId := some 102, pairId := some 10, role := some Role.B,
    confirmPrice := none, roleHistory := [Role.B], previousPartners := [1] }

def pW : GPair :=
  { id := 10, roomId := "room1", userAId := 1, userBId := 2, messages := [],
    product := "phone",
    latestOffers := { offA := none, offB := none, offNull := none },
    finalDeal := none, startedAt := 0, endedAt := none, ended := false }

def stW : GameState := { users := [uW1, uW2], pairs := [pW] }

def dealW : Deal :=
  { price := mkRat 250 1, confirmedAt := 2, startedAt := 0, durationSeconds := 0,
    userA := 1, userB := 2, success := true }

def pWset : GPair := { pW with finalDeal := some dealW }

def uW2c : GUser := { uW2 with confirmPrice := some (mkRat 300 1) }

def stWset : GameState := { users := [uW1, uW2c], pairs := [pWset] }

def uP (i : Nat) : GUser :=
  { id := i, name := "U", socketId := some i, pairId := none, role := none,
    confirmPrice := none, roleHistory := [], previousPartners := [] }

def poolW : List GUser := [uP 3, uP 4, uP 5, uP 6]

def mvpUW1 : MvpUser := { id := 1, roomId := 1, partnerId := some 2, status := "paired" }

def mvpUW2 : MvpUser := { id := 2, roomId := 1, partnerId := some 1, status := "paired" }

def mvpRoomW : MvpRoom := { id := 1, users := [1, 2], waitingQueue := [], activePairs := [100] }

def mvpPairW : MvpPair := { pairId := 100, users := [1, 2] }

def mvpW : MvpState := { users := [mvpUW1, mvpUW2], rooms := [mvpRoomW], pairs := [mvpPairW] }

def updW : Dict := [("role", JVal.jstr "A"), ("currentRound", JVal.jnum 2)]

def rowW : Dict := (persistCreateUser (JVal.jnum 7) [("name", JVal.jstr "P7")]).1

def cacheW : Dict := (persistCreateUser (JVal.jnum 7) [("name", JVal.jstr "P7")]).2

def rowW2 : Dict := ((persistUpdateUser rowW cacheW updW).getD (rowW, cacheW)).1

def cacheW2 : Dict := ((persistUpdateUser rowW cacheW updW).getD (rowW, cacheW)).2

def chatTextW : String := "I will pay $200"

def stR1 : GameState := runConfirms stW [(1, mkRat 250 1, 1), (2, mkRat 250 1, 2)]

def stR2 : GameState :=
  startRoundPairing stR1 "room1" [1, 2] (fun _ => 0) (fun _ => 0)
    (fun _ => true) (fun _ => false) 11 20

/-! ## The claims. -/

/-- C1: for every linked pair and any sequence of confirmation submissions,
a further submission by one participant settles the pair — emitting exactly
the pair-room acceptance event — iff the submitted price equals the
counterpart's most recently stored confirmation price; on a match the
pair's stored deal carries that price, and on a mismatch the pair object is
unchanged while the submitter gets a pending notice and the counterpart,
when connected, the partner-confirming notice. -/
theorem C1_confirm_settlement (st : GameState) (pid a b : Nat) (ua ub : GUser)
    (p : GPair) (hs : pairedSetup st pid a b ua ub p)
    (subs : List (Nat × ℚ × Nat)) (pr : ℚ) (t : Nat) :
    ((confirmDeal (runConfirms st subs) a pr t).2 = [Ev.dealConfirmedPair pid pr]
        ↔ lastPrice b subs ub.confirmPrice = some pr)
    ∧ (lastPrice b subs ub.confirmPrice = some pr →
        dealPriceAt (confirmDeal (runConfirms st subs) a pr t).1 pid = some (some pr))
    ∧ (lastPrice b subs ub.confirmPrice ≠ some pr →
        findPair (confirmDeal (runConfirms st subs) a pr t).1 pid
            = findPair (runConfirms st subs) pid
        ∧ (confirmDeal (runConfirms st subs) a pr t).2
            = Ev.dealPending a pr ::
                (if ub.socketId.isSome then [Ev.partnerConfirming b pr] else [])) := by
  obtain ⟨d0, hs1⟩ := runConfirms_track subs st pid a b ua ub p hs
  have hsub := confirmDeal_submit (runConfirms st subs) pid a b _ _ _ hs1 pr t
  by_cases hm : lastPrice b subs ub.confirmPrice = some pr
  · have hbq : ((({ ub with confirmPrice := lastPrice b subs ub.confirmPrice } : GUser)).confirmPrice
        == some pr) = true := by simp [hm]
    rw [hsub, if_pos hbq]
    refine ⟨⟨fun _ => hm, fun _ => rfl⟩, fun _ => ?_, fun hne => absurd hm hne⟩
    obtain ⟨_, _, _, _, _, hP1, _⟩ := hs1
    simp only [dealPriceAt]
    rw [findPair_setPair_self _ _ _ (fdId _), findPair_setUser, hP1]
    rfl
  · have hbq : ¬ (((({ ub with confirmPrice := lastPrice b subs ub.confirmPrice } : GUser)).confirmPrice
        == some pr) = true) := by simp [hm]
    rw [hsub, if_neg hbq]
    exact ⟨⟨fun h => by simp at h, fun h => absurd h hm⟩,
      fun h => absurd h hm, fun _ => ⟨rfl, rfl⟩⟩

/-- C1 witness: in the concrete two-user state, after the counterpart
stores 250, a confirmation of 250 settles pair 10. -/
theorem C1_confirm_settlement_witness :
    (confirmDeal (runConfirms stW [(2, mkRat 250 1, 3)]) 1 (mkRat 250 1) 5).2
      = [Ev.dealConfirmedPair 10 (mkRat 250 1)] :=
  ((C1_confirm_settlement stW 10 1 2 uW1 uW2 pW
      (by unfold pairedSetup; decide) [(2, mkRat 250 1, 3)] (mkRat 250 1) 5).1).mpr
    (by decide)

/-- C2 counterexample: after users 1 and 2 settle pair 10 at price 250,
further confirmations at 300 are not rejected — the second matching
submission emits the acceptance event again and the stored deal's price
changes from 250 to 300. -/
theorem C2_counterexample :
    dealPriceAt stR1 10 = some (some (mkRat 250 1))
    ∧ (confirmDeal (runConfirms stW
          [(1, mkRat 250 1, 1), (2, mkRat 250 1, 2), (1, mkRat 300 1, 3)])
        2 (mkRat 300 1) 4).2 = [Ev.dealConfirmedPair 10 (mkRat 300 1)]
    ∧ dealPriceAt (confirmDeal (runConfirms stW
          [(1, mkRat 250 1, 1), (2, mkRat 250 1, 2), (1, mkRat 300 1, 3)])
        2 (mkRat 300 1) 4).1 10 = some (some (mkRat 300 1)) := by
  refine ⟨by decide, by decide, by decide⟩

/-- C2 (amended): `confirmDeal` never consults an existing `finalDeal`: on
a pair already carrying a settled deal, a matching confirmation is
processed exactly as on an unsettled pair — the acceptance event is emitted
and the stored deal is replaced by a fresh one at the (possibly different)
newly agreed price. -/
theorem C2_deal_overwritten (st : GameState) (pid a b : Nat) (ua ub : GUser)
    (p : GPair) (hs : pairedSetup st pid a b ua ub p) (d : Deal)
    (hsettled : p.finalDeal = some d) (pr : ℚ) (t : Nat)
    (hmatch : ub.confirmPrice = some pr) :
    (confirmDeal st a pr t).2 = [Ev.dealConfirmedPair pid pr]
    ∧ dealPriceAt (confirmDeal st a pr t).1 pid = some (some pr) := by
  have hsub := confirmDeal_submit st pid a b ua ub p hs pr t
  have hbq : (ub.confirmPrice == some pr) = true := by simp [hmatch]
  rw [hsub, if_pos hbq]
  refine ⟨rfl, ?_⟩
  obtain ⟨_, _, _, _, _, hP, _⟩ := hs
  simp only [dealPriceAt]
  rw [findPair_setPair_self _ _ _ (fdId _), findPair_setUser, hP]
  rfl

/-- C2 witness: on the concrete state whose pair 10 already stores a deal
at 250 and whose counterpart stores 300, confirming 300 settles again and
overwrites the stored price. -/
theorem C2_deal_overwritten_witness :
    (confirmDeal stWset 1 (mkRat 300 1) 9).2 = [Ev.dealConfirmedPair 10 (mkRat 300 1)]
    ∧ dealPriceAt (confirmDeal stWset 1 (mkRat 300 1) 9).1 10
        = some (some (mkRat 300 1)) :=
  C2_deal_overwritten stWset 10 1 2 uW1 uW2c pWset
    (by unfold pairedSetup; decide) dealW (by decide) (mkRat 300 1) 9 (by decide)

/-- C3: on any pool of participants with distinct ids, matchmaking yields
exactly ⌊N/2⌋ pairs, no participant id occurs in two pairs, and no pair
matches a participant with themselves. -/
theorem C3_matchmaking_pairs (sh pick : Nat → Nat) (cA cB : Nat → Bool)
    (pool : List GUser) (hnd : (pool.map (fun u => u.id)).Nodup) :
    (createGamePairs sh pick cA cB pool).length = pool.length / 2
    ∧ (pairIds (createGamePairs sh pick cA cB pool)).Nodup
    ∧ ∀ pr ∈ createGamePairs sh pick cA cB pool, pr.1.id ≠ pr.2.id := by
  obtain ⟨h1, h2, h3⟩ := createGamePairsProps sh pick cA cB pool hnd
  exact ⟨h1, h3, fun pr hpr => (h2 pr hpr).1⟩

/-- C3 witness: a four-user pool produces two disjoint pairs. -/
theorem C3_matchmaking_pairs_witness :
    (createGamePairs (fun _ => 0) (fun _ => 0) (fun _ => true) (fun _ => true) poolW).length
        = poolW.length / 2
    ∧ (pairIds (createGamePairs (fun _ => 0) (fun _ => 0)
        (fun _ => true) (fun _ => true) poolW)).Nodup :=
  ⟨(C3_matchmaking_pairs (fun _ => 0) (fun _ => 0) (fun _ => true) (fun _ => true)
      poolW (by decide)).1,
   (C3_matchmaking_pairs (fun _ => 0) (fun _ => 0) (fun _ => true) (fun _ => true)
      poolW (by decide)).2.1⟩

/-- C4: every matched pair receives exactly one Buyer and one Seller; when
the two role preferences differ each side gets its preference, when they
coincide the lower cumulative Buyer count wins the Buyer role, and the
remaining exact tie deterministically makes the first-drawn participant
(popped from the pool's end) the Buyer. -/
theorem C4_role_assignment (sh pick : Nat → Nat) (cA cB : Nat → Bool)
    (pool : List GUser) (hnd : (pool.map (fun u => u.id)).Nodup) :
    (∀ pr ∈ createGamePairs sh pick cA cB pool,
        (pr.1.role = some Role.B ∧ pr.2.role = some Role.A)
        ∨ (pr.1.role = some Role.A ∧ pr.2.role = some Role.B))
    ∧ (∀ (uA uB : GUser) (ca cb : Bool),
        (shouldPlayerBeBuyer uA ca ≠ shouldPlayerBeBuyer uB cb →
          assignPairRoles uA uB ca cb
            = (if shouldPlayerBeBuyer uA ca then Role.B else Role.A,
               if shouldPlayerBeBuyer uB cb then Role.B else Role.A))
        ∧ (shouldPlayerBeBuyer uA ca = shouldPlayerBeBuyer uB cb →
            buyerCount uA ≤ buyerCount uB →
            assignPairRoles uA uB ca cb = (Role.B, Role.A))
        ∧ (shouldPlayerBeBuyer uA ca = shouldPlayerBeBuyer uB cb →
            buyerCount uB < buyerCount uA →
            assignPairRoles uA uB ca cb = (Role.A, Role.B))) := by
  refine ⟨fun pr hpr =>
    ((createGamePairsProps sh pick cA cB pool hnd).2.1 pr hpr).2.2.2.1, ?_⟩
  intro uA uB ca cb
  refine ⟨?_, ?_, ?_⟩
  · intro h
    have hb : (shouldPlayerBeBuyer uA ca == shouldPlayerBeBuyer uB cb) = false := by
      simp
      exact h
    simp [assignPairRoles, hb]
  · intro h h2
    have hb : (shouldPlayerBeBuyer uA ca == shouldPlayerBeBuyer uB cb) = true := by
      simp [h]
    simp [assignPairRoles, hb, h2]
  · intro h h2
    have hb : (shouldPlayerBeBuyer uA ca == shouldPlayerBeBuyer uB cb) = true := by
      simp [h]
    have h3 : ¬ buyerCount uA ≤ buyerCount uB := Nat.not_le.mpr h2
    simp [assignPairRoles, hb, h3]

/-- C4 witness: two fresh users both prefer Buyer by the same coin; the tie
on Buyer counts makes the first-drawn one the Buyer. -/
theorem C4_role_assignment_witness :
    assignPairRoles (uP 3) (uP 4) true true = (Role.B, Role.A) :=
  ((C4_role_assignment (fun _ => 0) (fun _ => 0) (fun _ => true) (fun _ => true)
      poolW (by decide)).2 (uP 3) (uP 4) true true).2.1 (by decide) (by decide)

/-- C5 counterexample: the text "I can sell this for $500" matches none of
the extractor's offer phrases — its single candidate is tagged "neutral"
with confidence 117/250, not an offer-declaration at high confidence as the
spec example states (the offer value 500 itself is produced). -/
theorem C5_counterexample :
    (extractNumbersWithRegex "I can sell this for $500" (some Role.A)).offer
        = some (mkRat 500 1)
    ∧ (extractNumbersWithRegex "I can sell this for $500" (some Role.A)).numbersFound.length = 1
    ∧ ∀ c ∈ (extractNumbersWithRegex "I can sell this for $500" (some Role.A)).numbersFound,
        c.context ≠ "offer_phrase" ∧ c.confidence < mkRat 9 10 := by
  refine ⟨by decide, by decide, by decide⟩

/-- C5 (amended): on "I can sell this for $500" with role Seller the
extractor yields offer 500, but from a single "neutral" candidate at
confidence 117/250 — no offer-declaration tag; a number right after
"iPhone" is suppressed to confidence 1/20 as a model number and excluded,
giving a null offer; a text with no numeric token yields a null offer. -/
theorem C5_extraction_examples :
    ((extractNumbersWithRegex "I can sell this for $500" (some Role.A)).offer
        = some (mkRat 500 1))
    ∧ ((extractNumbersWithRegex "I can sell this for $500" (some Role.A)).numbersFound.length = 1)
    ∧ (∀ c ∈ (extractNumbersWithRegex "I can sell this for $500" (some Role.A)).numbersFound,
        c.context = "neutral" ∧ c.confidence = mkRat 117 250)
    ∧ ((extractNumbersWithRegex "Selling my iPhone 14 Pro today" (some Role.A)).numbersFound.length = 1)
    ∧ (∀ c ∈ (extractNumbersWithRegex "Selling my iPhone 14 Pro today" (some Role.A)).numbersFound,
        c.confidence = mkRat 1 20 ∧ c.context = "model_number")
    ∧ ((extractNumbersWithRegex "Selling my iPhone 14 Pro today" (some Role.A)).offer = none)
    ∧ ((extractNumbersWithRegex "no numbers here at all" (some Role.A)).offer = none) := by
  refine ⟨by decide, by decide, by decide, by decide, by decide, by decide, by decide⟩

/-- C6: for every message text and role the extracted offer follows the
spec's selection policy exactly — `specSelect` applied to the extractor's
own candidate list. -/
theorem C6_selection_policy (text : String) (role : Option Role) :
    (extractNumbersWithRegex text role).offer
      = specSelect (extractNumbersWithRegex text role).numbersFound role :=
  selectOffer_eq_specSelect _ _

/-- C7 counterexample: disconnecting user 1 of the active pair 10 only
clears their socket id — the pair is neither ended nor stamped with an end
time, and the partner remains linked to the pair instead of being released
to a waiting state. -/
theorem C7_counterexample :
    findUser (serverDisconnect stW 1) 1 = some { uW1 with socketId := none }
    ∧ findPair (serverDisconnect stW 1) 10 = some pW
    ∧ pW.ended = false
    ∧ pW.endedAt = none
    ∧ findUser (serverDisconnect stW 1) 2 = some uW2 := by
  refine ⟨by decide, by decide, by decide, by decide, by decide⟩

/-- C7 (amended): the server's disconnect handler changes only the
disconnecting user's connectivity flag — the pair table and every other
user are untouched, so the pair is not terminated and the partner is not
released; the repository's earlier MVP module's `handleDisconnect` (not
wired into the server) does release the partner to a waiting state and
queue them, but deletes the pair outright, recording no abandoned status
and no end time. -/
theorem C7_disconnect_frame (st : GameState) (uid : Nat) (u : GUser)
    (hu : findUser st uid = some u) :
    (serverDisconnect st uid).pairs = st.pairs
    ∧ findUser (serverDisconnect st uid) uid = some { u with socketId := none }
    ∧ (∀ v, v ≠ uid → findUser (serverDisconnect st uid) v = findUser st v)
    ∧ mvpFindUser (handleDisconnect mvpW 1) 2
        = some { id := 2, roomId := 1, partnerId := none, status := "waiting" }
    ∧ (handleDisconnect mvpW 1).pairs = []
    ∧ ((handleDisconnect mvpW 1).rooms.find? (fun r => r.id == 1)).map MvpRoom.waitingQueue
        = some [2] := by
  refine ⟨?_, ?_, ?_, by decide, by decide, by decide⟩
  · simp only [serverDisconnect, hu]
    rfl
  · simp only [serverDisconnect, hu]
    rw [findUser_setUser_self st uid (fun w => { w with socketId := none }) (fun _ => rfl), hu]
    rfl
  · intro v hv
    simp only [serverDisconnect, hu]
    rw [findUser_setUser_ne st uid v (fun w => { w with socketId := none }) (fun _ => rfl) hv]

/-- C7 witness: the frame theorem applied to the concrete two-user state. -/
theorem C7_disconnect_frame_witness :
    (serverDisconnect stW 1).pairs = stW.pairs
    ∧ findUser (serverDisconnect stW 1) 1 = some { uW1 with socketId := none } :=
  ⟨(C7_disconnect_frame stW 1 uW1 (by decide)).1,
   (C7_disconnect_frame stW 1 uW1 (by decide)).2.1⟩

/-- C8 counterexample: an update of the `role` field reaches the cached
user object but is silently dropped by `transformUpdatesForDb`, so after a
restart the reloaded user disagrees with the last committed cached state —
the merge is not lossless. -/
theorem C8_counterexample :
    transformUpdatesForDb [("role", JVal.jstr "A")] "user" = []
    ∧ dGet cacheW2 "role" = JVal.jstr "A"
    ∧ dGet (rereadUserAfterRestart rowW2) "role" = JVal.jnull := by
  refine ⟨by decide, by decide, by decide⟩

/-- C8 (amended): the update merge translates each mapped camelCase cache
field to its snake_case column deterministically and losslessly — shown for
every value of every mapped field of the three entity types — and a mapped
field such as `currentRound` re-reads to its committed value after a
restart; but the restart round-trip is not field-for-field: a user's
`role` update and a room's `image` update are dropped entirely (an update
of only dropped fields even throws before the cache is touched), and a
committed `socketId` is cached but forced back to `null` by every reload. -/
theorem C8_update_translation :
    (∀ v : JVal,
      transformUpdatesForDb [("surveyResponses", v)] "user" = [("survey_responses", v)]
      ∧ transformUpdatesForDb [("surveyCompleted", v)] "user" = [("survey_completed", v)]
      ∧ transformUpdatesForDb [("currentRound", v)] "user" = [("current_round", v)]
      ∧ transformUpdatesForDb [("completedRounds", v)] "user" = [("completed_rounds", v)]
      ∧ transformUpdatesForDb [("completedDeals", v)] "user" = [("completed_deals", v)]
      ∧ transformUpdatesForDb [("previousPartners", v)] "user" = [("previous_partners", v)]
      ∧ transformUpdatesForDb [("roleHistory", v)] "user" = [("role_history", v)]
      ∧ transformUpdatesForDb [("roomId", v)] "user" = [("room_id", v)]
      ∧ transformUpdatesForDb [("socketId", v)] "user" = [("socket_id", v)]
      ∧ transformUpdatesForDb [("pairId", v)] "user" = [("pair_id", v)]
      ∧ transformUpdatesForDb [("currentRound", v)] "room" = [("current_round", v)]
      ∧ transformUpdatesForDb [("imageUrl", v)] "room" = [("image_url", v)]
      ∧ transformUpdatesForDb [("finalDeal", v)] "pair" = [("final_deal", v)]
      ∧ transformUpdatesForDb [("latestOffers", v)] "pair" = [("latest_offers", v)]
      ∧ transformUpdatesForDb [("role", v)] "user" = []
      ∧ transformUpdatesForDb [("image", v)] "room" = [])
    ∧ (∀ v : JVal,
      dGet (dMerge cacheW [("socketId", v)]) "socketId" = v
      ∧ dGet (rereadUserAfterRestart
          (dMerge rowW (transformUpdatesForDb [("socketId", v)] "user"))) "socketId"
        = JVal.jnull
      ∧ persistUpdateUser rowW cacheW [("role", v)] = none)
    ∧ persistUpdateUser rowW cacheW updW = some (rowW2, cacheW2)
    ∧ dGet cacheW2 "currentRound" = JVal.jnum 2
    ∧ dGet (rereadUserAfterRestart rowW2) "currentRound" = JVal.jnum 2 := by
  refine ⟨fun v => ⟨rfl, rfl, rfl, rfl, rfl, rfl, rfl, rfl, rfl, rfl, rfl, rfl,
    rfl, rfl, rfl, rfl⟩, fun v => ⟨rfl, rfl, rfl⟩, by decide, by decide, by decide⟩

/-- C9 counterexample: a database connection error is fatal — the pool's
error listener terminates the process with exit code -1, so not every
persistence failure is non-fatal. -/
theorem C9_counterexample : (poolOnError "connection lost").2 = ProcAct.exit (-1) := rfl

/-- C9 (amended): in the chat handler the in-memory state mutation is
independent of whether the offer-update or message-save writes fail, the
handler always lets the process continue, and failed writes are only
logged; the database pool's error listener, however, exits the process. -/
theorem C9_write_failures :
    (∀ (st : GameState) (uid : Nat) (text : String) (now : Nat) (f1 f2 g1 g2 : Bool),
        (chatMessage st uid text now f1 f2).1 = (chatMessage st uid text now g1 g2).1
        ∧ (chatMessage st uid text now f1 f2).2.2.2 = ProcAct.cont)
    ∧ (chatMessage stW 1 chatTextW 7 true true).2.2.1
        = [LogE.offersUpdateError, LogE.messageSaveError]
    ∧ (chatMessage stW 1 chatTextW 7 true true).1
        = (chatMessage stW 1 chatTextW 7 false false).1
    ∧ poolOnError "db down" = (["Database connection error: db down"], ProcAct.exit (-1)) := by
  refine ⟨?_, by decide, by decide, rfl⟩
  intro st uid text now f1 f2 g1 g2
  cases hfu : findUser st uid with
  | none => simp [chatMessage, hfu]
  | some u =>
    cases hpq : u.pairId with
    | none => simp [chatMessage, hfu, hpq]
    | some pid =>
      cases hfp : findPair st pid with
      | none => simp [chatMessage, hfu, hpq, hfp]
      | some pr2 =>
        cases ho : (extractNumbersWithRegex text u.role).offer with
        | none => simp [chatMessage, hfu, hpq, hfp, ho]
        | some v => simp [chatMessage, hfu, hpq, hfp, ho]

/-- C10: creating a new pair leaves both participants' stored
`confirmPrice` untouched: in a concrete two-round run the 250 confirmed in
round one is still stored after round-two matchmaking pairs the same two
users into the fresh pair 11, and a single confirmation by user 1 at 250
settles the new pair instantly against the counterpart's stale price. -/
theorem C10_stale_confirm_price :
    (findUser stR1 1).map GUser.confirmPrice = some (some (mkRat 250 1))
    ∧ (findUser stR2 1).map GUser.confirmPrice = some (some (mkRat 250 1))
    ∧ (findUser stR2 2).map GUser.confirmPrice = some (some (mkRat 250 1))
    ∧ (findUser stR2 1).map GUser.pairId = some (some 11)
    ∧ (findUser stR2 2).map GUser.pairId = some (some 11)
    ∧ dealPriceAt stR2 11 = some none
    ∧ (confirmDeal stR2 1 (mkRat 250 1) 21).2 = [Ev.dealConfirmedPair 11 (mkRat 250 1)]
    ∧ dealPriceAt (confirmDeal stR2 1 (mkRat 250 1) 21).1 11
        = some (some (mkRat 250 1)) := by
  refine ⟨by decide, by decide, by decide, by decide, by decide, by decide,
    by decide, by decide⟩

end NegGame
